import Mathlib

/-!
# PasswordWallet: the enclave command handlers

A shallow embedding of `src/enclave/enclave.cpp` (the five ECALLs), of the
wallet layout of `src/include/wallet.h` and of the three host OCALLs of
`src/app/app.cpp`.

Conventions of the embedding.

* A `char` or `uint8_t` is a natural number; a buffer is a list of them.  A read
  past the end of a list yields the terminator `0`, so `[115, 105]` stands for a
  slot holding `"si"` followed by zero bytes (`slot_image`).
* `size_t` is 64 bits wide (SGX enclaves are x86-64 only); `int` is 32 bits.
* `malloc` returns memory with unspecified content.  That content, the value of
  the uninitialised local `ocall_ret`, the status returned by the generated OCALL
  stubs and the sealing engine are the environment `Env` of a call.
* `free` is not modelled.
* The host keeps the history of the calls that reached it in `Host.trace`; the
  enclave appends its calls of the sealing engine to the same history.
-/

namespace PasswordWallet

/-! ## `wallet.h` -/

/-- Number of item slots of a wallet (`#define MAX_ITEMS 100`). -/
def MAX_ITEMS : Nat := 100

/-- Size in bytes of every string slot (`#define MAX_ITEMS_SIZE 100`). -/
def MAX_ITEMS_SIZE : Nat := 100

/-- The `struct Item` of `wallet.h`: three string slots. -/
structure Item where
  title : List Nat
  username : List Nat
  password : List Nat
deriving DecidableEq

/-- The `struct Wallet` of `wallet.h`. -/
structure Wallet where
  items : List Item
  size : Nat
  master_password : List Nat
deriving DecidableEq

/-- The value of `sizeof(wallet_t)` on x86-64: 100 items of 300 bytes, an 8-byte
`size_t`, 100 bytes of master password, padded to a multiple of 8. -/
def sizeof_wallet_t : Nat := 30112

/-! ## C library and integer conversions -/

/-- The C `strlen`: number of bytes before the first terminator. -/
def strlen : List Nat → Nat
  | [] => 0
  | c :: cs => if c = 0 then 0 else strlen cs + 1

/-- The C `strcmp`: difference of the first pair of bytes that differ, `0` when
both strings end together. -/
def strcmp : List Nat → List Nat → Int
  | [], [] => 0
  | [], b :: _ => 0 - (b : Int)
  | a :: _, [] => (a : Int)
  | a :: as, b :: bs =>
    if a ≠ b then (a : Int) - (b : Int)
    else if a = 0 then 0
    else strcmp as bs

/-- The C `strncpy`: the first `num` bytes of `destination` become the string
`source`, cut or padded with zero bytes to `num` bytes. -/
def strncpy (destination source : List Nat) (num : Nat) : List Nat :=
  (source.takeWhile (fun c => c ≠ 0) ++ List.replicate num 0).take num ++ destination.drop num

/-- Number of values of a `size_t`. -/
def SIZE_T_RANGE : Nat := 2 ^ 64

/-- Conversion of an `int` to `size_t`, as done by the usual arithmetic conversions
when an `int` meets a `size_t` in a comparison. -/
def size_t_of_int (i : Int) : Nat := (i % (SIZE_T_RANGE : Int)).toNat

/-- Read of `wallet->items[i]`; `none` when `i` is outside the array. -/
def items_get (items : List Item) (i : Int) : Option Item :=
  if 0 ≤ i ∧ i < (MAX_ITEMS : Int) then items[i.toNat]? else none

/-- Write of `wallet->items[i] = x`; `none` when `i` is outside the array. -/
def items_set (items : List Item) (i : Int) (x : Item) : Option (List Item) :=
  if 0 ≤ i ∧ i < (MAX_ITEMS : Int) ∧ i.toNat < items.length then some (items.set i.toNat x)
  else none

/-! ## Result codes -/

/-- Modelled from the spec: the result codes of `enclave.h`, which is not among
the sources.  The spec (section 6) maps the result codes one to one to the error
kinds of its section 7, so the codes are pairwise distinct. -/
inductive Code
  | RET_SUCCESS
  | ERR_PASSWORD_OUT_OF_RANGE
  | ERR_WALLET_ALREADY_EXISTS
  | ERR_CANNOT_SAVE_WALLET
  | ERR_CANNOT_LOAD_WALLET
  | ERR_WRONG_MASTER_PASSWORD
  | ERR_WALLET_FULL
  | ERR_ITEM_DOES_NOT_EXIST
  | ERR_ITEM_TOO_LONG
  | ERR_FAIL_SEAL
  | ERR_FAIL_UNSEAL
deriving DecidableEq

/-- The SGX status `SGX_SUCCESS`. -/
def SGX_SUCCESS : Nat := 0

/-! ## The host (`app.cpp`) -/

/-- One call recorded in the history. -/
inductive Event
  | is_wallet
  | load (sealed_size : Nat)
  | save (sealed_data : List Nat) (sealed_size : Nat)
  | unseal (sealed_data : List Nat) (plaintext_size : Nat)
  | seal (wallet : Wallet) (sealed_size : Nat)
deriving DecidableEq

/-- The untrusted host: the wallet file (`none` when it cannot be opened for
reading), whether opening it for writing fails, and the history of calls. -/
structure Host where
  file : Option (List Nat)
  write_fails : Bool
  trace : List Event
deriving DecidableEq

/-- Append an event to the history. -/
def Host.record (h : Host) (e : Event) : Host :=
  { h with trace := h.trace ++ [e] }

/-- The `ocall_save_wallet` of `app.cpp`: returns 1 when the file cannot be opened
for writing, else replaces its content by `sealed_size` bytes of `sealed_data`. -/
def ocall_save_wallet (h : Host) (sealed_data : List Nat) (sealed_size : Nat) : Int × Host :=
  let h1 := h.record (Event.save sealed_data sealed_size)
  if h1.write_fails then (1, h1)
  else (0, { h1 with file := some (sealed_data.take sealed_size) })

/-- The `ocall_load_wallet` of `app.cpp`: returns 1 when the file cannot be opened
for reading, else reads up to `sealed_size` bytes of it over `sealed_data`. -/
def ocall_load_wallet (h : Host) (sealed_data : List Nat) (sealed_size : Nat) :
    Int × List Nat × Host :=
  let h1 := h.record (Event.load sealed_size)
  match h1.file with
  | none => (1, sealed_data, h1)
  | some f => (0, f.take sealed_size ++ sealed_data.drop (f.take sealed_size).length, h1)

/-- The `ocall_is_wallet` of `app.cpp`: 1 when the file can be opened for reading. -/
def ocall_is_wallet (h : Host) : Int × Host :=
  let h1 := h.record Event.is_wallet
  match h1.file with
  | none => (0, h1)
  | some _ => (1, h1)

/-! ## The environment of an ECALL -/

/-- The three OCALLs. -/
inductive Ocall
  | is_wallet
  | load_wallet
  | save_wallet
deriving DecidableEq

/-- What the sources under `src/` leave open: the sealing engine
(`sealing/sealing.h`), `sizeof(sgx_sealed_data_t)`, the status with which each
generated OCALL stub returns, and the content of uninitialised memory. -/
structure Env where
  seal_wallet : Wallet → Nat → Option (List Nat)
  unseal_wallet : List Nat → Nat → Option Wallet
  sizeof_sgx_sealed_data_t : Nat
  ocall_status : Ocall → Nat
  ocall_ret : Int
  malloc_sealed : List Nat
  malloc_wallet : Wallet

/-- What an OCALL stub leaves behind: its status, the local `ocall_ret`, the
buffer and the host. -/
structure OcallResult where
  status : Nat
  ret : Int
  sealed_data : List Nat
  host : Host

/-- The stubs of `enclave_t.h`: with status `SGX_SUCCESS` the host function has
run and its return value is stored in `ocall_ret`; with any other status the host
function has not run and `ocall_ret` and the buffer keep their content. -/
def enclave_t_ocall_is_wallet (env : Env) (h : Host) : OcallResult :=
  if env.ocall_status Ocall.is_wallet = SGX_SUCCESS then
    { status := SGX_SUCCESS, ret := (ocall_is_wallet h).1, sealed_data := [],
      host := (ocall_is_wallet h).2 }
  else
    { status := env.ocall_status Ocall.is_wallet, ret := env.ocall_ret, sealed_data := [],
      host := h }

/-- The stub of `ocall_load_wallet`, see `enclave_t_ocall_is_wallet`. -/
def enclave_t_ocall_load_wallet (env : Env) (h : Host) (sealed_data : List Nat)
    (sealed_size : Nat) : OcallResult :=
  if env.ocall_status Ocall.load_wallet = SGX_SUCCESS then
    { status := SGX_SUCCESS, ret := (ocall_load_wallet h sealed_data sealed_size).1,
      sealed_data := (ocall_load_wallet h sealed_data sealed_size).2.1,
      host := (ocall_load_wallet h sealed_data sealed_size).2.2 }
  else
    { status := env.ocall_status Ocall.load_wallet, ret := env.ocall_ret,
      sealed_data := sealed_data, host := h }

/-- The stub of `ocall_save_wallet`, see `enclave_t_ocall_is_wallet`. -/
def enclave_t_ocall_save_wallet (env : Env) (h : Host) (sealed_data : List Nat)
    (sealed_size : Nat) : OcallResult :=
  if env.ocall_status Ocall.save_wallet = SGX_SUCCESS then
    { status := SGX_SUCCESS, ret := (ocall_save_wallet h sealed_data sealed_size).1,
      sealed_data := sealed_data, host := (ocall_save_wallet h sealed_data sealed_size).2 }
  else
    { status := env.ocall_status Ocall.save_wallet, ret := env.ocall_ret,
      sealed_data := sealed_data, host := h }

/-- The `sealed_size` every ECALL computes:
`sizeof(sgx_sealed_data_t) + sizeof(wallet_t)`. -/
def sealed_size (env : Env) : Nat := env.sizeof_sgx_sealed_data_t + sizeof_wallet_t

/-- Result of an ECALL: the returned code and the host afterwards. -/
structure Outcome where
  ret : Code
  host : Host
deriving DecidableEq

/-- Result of `ecall_show_wallet`: the returned code, the wallet of the caller
afterwards, and the host afterwards. -/
structure ShowOutcome where
  ret : Code
  wallet : Wallet
  host : Host
deriving DecidableEq

/-! ## `enclave.cpp` -/

/-- Steps "Seal wallet" and "Save wallet", the same text at the end of
`ecall_create_wallet`, `ecall_change_master_password`, `ecall_add_item` and
`ecall_remove_item`.  On a failed seal `ecall_change_master_password` and
`ecall_add_item` free the wallet a second time before they return `ERR_FAIL_SEAL`;
the heap is not modelled, so the four ECALLs share this text. -/
def seal_and_save (env : Env) (h : Host) (wallet : Wallet) : Outcome :=
  let h1 := h.record (Event.seal wallet (sealed_size env))
  match env.seal_wallet wallet (sealed_size env) with
  | none => { ret := Code.ERR_FAIL_SEAL, host := h1 }
  | some sealed_data =>
    let r := enclave_t_ocall_save_wallet env h1 sealed_data (sealed_size env)
    if r.ret ≠ 0 ∨ r.status ≠ SGX_SUCCESS then
      { ret := Code.ERR_CANNOT_SAVE_WALLET, host := r.host }
    else
      { ret := Code.RET_SUCCESS, host := r.host }

/-- The `ecall_create_wallet` of `enclave.cpp`. -/
def ecall_create_wallet (env : Env) (h : Host) (master_password : List Nat) : Outcome :=
  -- 1. Check password policy
  if strlen master_password < 8 ∨ strlen master_password + 1 > MAX_ITEMS_SIZE then
    { ret := Code.ERR_PASSWORD_OUT_OF_RANGE, host := h }
  else
    -- 2. Abort if wallet already exist
    let r := enclave_t_ocall_is_wallet env h
    if r.ret ≠ 0 then
      { ret := Code.ERR_WALLET_ALREADY_EXISTS, host := r.host }
    else
      -- 3. Create new wallet
      let wallet : Wallet :=
        { items := env.malloc_wallet.items
          size := 0
          master_password :=
            strncpy env.malloc_wallet.master_password master_password
              (strlen master_password + 1) }
      -- 4. Seal wallet, 5. Save wallet
      seal_and_save env r.host wallet

/-- What the steps "Load wallet" and "Unseal wallet" produce. -/
inductive Loaded
  | fail (ret : Code) (host : Host)
  | ok (wallet : Wallet) (host : Host)

/-- Step "Unseal wallet", the same text in four ECALLs. -/
def unseal_loaded (env : Env) (h : Host) (sealed_data : List Nat) : Loaded :=
  let h1 := h.record (Event.unseal sealed_data sizeof_wallet_t)
  match env.unseal_wallet sealed_data sizeof_wallet_t with
  | none => Loaded.fail Code.ERR_FAIL_UNSEAL h1
  | some wallet => Loaded.ok wallet h1

/-- Steps "Load wallet" and "Unseal wallet" of `ecall_change_master_password`,
`ecall_add_item` and `ecall_remove_item`. -/
def load_and_unseal (env : Env) (h : Host) : Loaded :=
  let r := enclave_t_ocall_load_wallet env h env.malloc_sealed (sealed_size env)
  if r.ret ≠ 0 ∨ r.status ≠ SGX_SUCCESS then
    Loaded.fail Code.ERR_CANNOT_LOAD_WALLET r.host
  else
    unseal_loaded env r.host r.sealed_data

/-- Steps "Load wallet" and "Unseal wallet" of `ecall_show_wallet`, whose test
after the load reads `ocall_status != 0 || ocall_status != SGX_SUCCESS`. -/
def show_load_and_unseal (env : Env) (h : Host) : Loaded :=
  let r := enclave_t_ocall_load_wallet env h env.malloc_sealed (sealed_size env)
  if r.status ≠ 0 ∨ r.status ≠ SGX_SUCCESS then
    Loaded.fail Code.ERR_CANNOT_LOAD_WALLET r.host
  else
    unseal_loaded env r.host r.sealed_data

/-- The `ecall_show_wallet` of `enclave.cpp`; `wallet` is the output parameter. -/
def ecall_show_wallet (env : Env) (h : Host) (master_password : List Nat) (wallet : Wallet)
    (_wallet_size : Nat) : ShowOutcome :=
  -- 1. Load wallet, 2. Unseal loaded wallet
  match show_load_and_unseal env h with
  | Loaded.fail ret h1 => { ret := ret, wallet := wallet, host := h1 }
  | Loaded.ok unsealed_wallet h1 =>
    -- 3. Verify master-password
    if strcmp unsealed_wallet.master_password master_password ≠ 0 then
      { ret := Code.ERR_WRONG_MASTER_PASSWORD, wallet := wallet, host := h1 }
    else
      -- 4. Return wallet to the app
      { ret := Code.RET_SUCCESS, wallet := unsealed_wallet, host := h1 }

/-- The `ecall_change_master_password` of `enclave.cpp`. -/
def ecall_change_master_password (env : Env) (h : Host) (old_password new_password : List Nat) :
    Outcome :=
  -- 1. Check password policy
  if strlen new_password < 8 ∨ strlen new_password + 1 > MAX_ITEMS_SIZE then
    { ret := Code.ERR_PASSWORD_OUT_OF_RANGE, host := h }
  else
    -- 2. Load wallet, 3. Unseal wallet
    match load_and_unseal env h with
    | Loaded.fail ret h1 => { ret := ret, host := h1 }
    | Loaded.ok wallet h1 =>
      -- 4. Verify master-password
      if strcmp wallet.master_password old_password ≠ 0 then
        { ret := Code.ERR_WRONG_MASTER_PASSWORD, host := h1 }
      else
        -- 5. Update password, 6. Seal wallet, 7. Save wallet
        seal_and_save env h1
          { wallet with
            master_password :=
              strncpy wallet.master_password new_password (strlen new_password + 1) }

/-- What step 5 of `ecall_add_item` or of `ecall_remove_item` does to the wallet:
it changes it, returns early with a code, or touches memory outside
`wallet->items`. -/
inductive Update
  | done (wallet : Wallet)
  | fail (ret : Code)
  | undefined
deriving DecidableEq

/-- Step 5 of `ecall_add_item`, "Add item to the wallet". -/
def add_item_update (wallet : Wallet) (item : Item) : Update :=
  let wallet_size := wallet.size
  if wallet_size ≥ MAX_ITEMS then Update.fail Code.ERR_WALLET_FULL
  else
    match items_set wallet.items (wallet_size : Int) item with
    | none => Update.undefined
    | some items =>
      Update.done { wallet with items := items, size := (wallet.size + 1) % SIZE_T_RANGE }

/-- The `ecall_add_item` of `enclave.cpp`; `none` when the call touches memory
outside `wallet->items`. -/
def ecall_add_item (env : Env) (h : Host) (master_password : List Nat) (item : Item)
    (_item_size : Nat) : Option Outcome :=
  -- 1. Load wallet, 2. Unseal wallet
  match load_and_unseal env h with
  | Loaded.fail ret h1 => some { ret := ret, host := h1 }
  | Loaded.ok wallet h1 =>
    -- 3. Verify master-password
    if strcmp wallet.master_password master_password ≠ 0 then
      some { ret := Code.ERR_WRONG_MASTER_PASSWORD, host := h1 }
    -- 4. Check input length
    else if strlen item.title + 1 > MAX_ITEMS_SIZE ∨
        strlen item.username + 1 > MAX_ITEMS_SIZE ∨
        strlen item.password + 1 > MAX_ITEMS_SIZE then
      some { ret := Code.ERR_ITEM_TOO_LONG, host := h1 }
    else
      -- 5. Add item to the wallet
      match add_item_update wallet item with
      | Update.fail ret => some { ret := ret, host := h1 }
      | Update.undefined => none
      -- 6. Seal wallet, 7. Save wallet
      | Update.done wallet1 => some (seal_and_save env h1 wallet1)

/-- The loop `for (int i = index; i < wallet_size - 1; ++i)` of
`ecall_remove_item`, with `wallet_size - 1` computed in `size_t` and `i`
converted to `size_t` for the comparison.  The first argument bounds the number of
tests of the loop condition; `none` is a read or write outside `wallet->items`, or
an exhausted bound. -/
def remove_loop (wallet_size : Nat) : Nat → Int → List Item → Option (List Item)
  | 0, _, _ => none
  | fuel + 1, i, items =>
    if size_t_of_int i < (wallet_size + SIZE_T_RANGE - 1) % SIZE_T_RANGE then
      match items_get items (i + 1) with
      | none => none
      | some next =>
        match items_set items i next with
        | none => none
        | some items1 => remove_loop wallet_size fuel (i + 1) items1
    else some items

/-- Step 5 of `ecall_remove_item`, "Remove item from the wallet".  The loop runs
with a bound of `MAX_ITEMS + 1` tests: from an index that is not negative it
leaves `wallet->items` before that (`remove_loop_bound`). -/
def remove_item_update (wallet : Wallet) (index : Int) : Update :=
  let wallet_size := wallet.size
  if size_t_of_int index ≥ wallet_size then Update.fail Code.ERR_ITEM_DOES_NOT_EXIST
  else
    match remove_loop wallet_size (MAX_ITEMS + 1) index wallet.items with
    | none => Update.undefined
    | some items =>
      Update.done
        { wallet with items := items, size := (wallet.size + SIZE_T_RANGE - 1) % SIZE_T_RANGE }

/-- The `ecall_remove_item` of `enclave.cpp`; `none` when the call touches memory
outside `wallet->items`. -/
def ecall_remove_item (env : Env) (h : Host) (master_password : List Nat) (index : Int) :
    Option Outcome :=
  -- 1. Check index bounds
  if index < 0 ∨ index ≥ (MAX_ITEMS : Int) then
    some { ret := Code.ERR_ITEM_DOES_NOT_EXIST, host := h }
  else
    -- 2. Load wallet, 3. Unseal wallet
    match load_and_unseal env h with
    | Loaded.fail ret h1 => some { ret := ret, host := h1 }
    | Loaded.ok wallet h1 =>
      -- 4. Verify master-password
      if strcmp wallet.master_password master_password ≠ 0 then
        some { ret := Code.ERR_WRONG_MASTER_PASSWORD, host := h1 }
      else
        -- 5. Remove item from the wallet
        match remove_item_update wallet index with
        | Update.fail ret => some { ret := ret, host := h1 }
        | Update.undefined => none
        -- 6. Seal wallet, 7. Save wallet
        | Update.done wallet1 => some (seal_and_save env h1 wallet1)

/-! ## Vocabulary of the properties -/

/-- The string held by a buffer: its bytes before the first terminator. -/
def c_str (s : List Nat) : List Nat := s.takeWhile (fun c => c ≠ 0)

/-- Whether an event is a call of the host save operation. -/
def Event.is_save : Event → Bool
  | Event.save _ _ => true
  | _ => false

/-- Number of calls of the host save operation in the history. -/
def Host.saves (h : Host) : Nat := h.trace.countP Event.is_save

/-- The buffer `sealed_data` after the host load operation has run. -/
def loaded_data (env : Env) (h : Host) : List Nat :=
  match h.file with
  | none => env.malloc_sealed
  | some f =>
    f.take (sealed_size env) ++ env.malloc_sealed.drop (f.take (sealed_size env)).length

/-- The host after the load operation has run and `unseal_wallet` was called on
the loaded buffer: the file is as before, the history has two more entries. -/
def opened (env : Env) (h : Host) : Host :=
  (h.record (Event.load (sealed_size env))).record
    (Event.unseal (loaded_data env h) sizeof_wallet_t)

/-- The wallet to which the persisted blob loads and unseals: the stub of the load
returns `SGX_SUCCESS`, the file opens, and `unseal_wallet` succeeds on the loaded
buffer. -/
def stored_wallet (env : Env) (h : Host) : Option Wallet :=
  if env.ocall_status Ocall.load_wallet = SGX_SUCCESS ∧ h.file.isSome = true then
    env.unseal_wallet (loaded_data env h) sizeof_wallet_t
  else none

/-- The host after `seal_wallet` was called on `wallet` and the blob `sealed_data`
it returned was saved. -/
def saved (env : Env) (h : Host) (wallet : Wallet) (sealed_data : List Nat) : Host :=
  { file := some (sealed_data.take (sealed_size env))
    write_fails := h.write_fails
    trace := h.trace ++
      [Event.seal wallet (sealed_size env), Event.save sealed_data (sealed_size env)] }

/-! ## Sample values -/

/-- The bytes of `"longpass1"`. -/
def longpass1 : List Nat := [108, 111, 110, 103, 112, 97, 115, 115, 49]

/-- The bytes of `"wrongpass"`. -/
def wrongpass : List Nat := [119, 114, 111, 110, 103, 112, 97, 115, 115]

/-- The bytes of `"short"`. -/
def short : List Nat := [115, 104, 111, 114, 116]

/-- An empty item slot. -/
def blank_item : Item := { title := [], username := [], password := [] }

/-- The item `{"site", "bob", "p@ss"}`. -/
def site_item : Item :=
  { title := [115, 105, 116, 101], username := [98, 111, 98], password := [112, 64, 115, 115] }

/-- A wallet with master password `"longpass1"` whose only live item is
`site_item`. -/
def sample_wallet : Wallet :=
  { items := site_item :: List.replicate 99 blank_item
    size := 1
    master_password := longpass1 }

/-- An environment whose sealing engine unseals every blob to `wallet` and seals
every wallet to the blob `[1]`, and whose OCALL stubs return `SGX_SUCCESS`. -/
def sample_env (wallet : Wallet) : Env :=
  { seal_wallet := fun _ _ => some [1]
    unseal_wallet := fun _ _ => some wallet
    sizeof_sgx_sealed_data_t := 560
    ocall_status := fun _ => SGX_SUCCESS
    ocall_ret := 0
    malloc_sealed := []
    malloc_wallet := { items := List.replicate 100 blank_item, size := 0, master_password := [] } }

/-- A host whose wallet file holds the blob `[1]`. -/
def sample_host : Host := { file := some [1], write_fails := false, trace := [] }

/-- A host without a wallet file. -/
def empty_host : Host := { file := none, write_fails := false, trace := [] }

/-- No save ran between the hosts `h` and `h1` and the wallet file is the same:
what a call that starts in `h` and ends in `h1` leaves of the persisted blob. -/
def unsaved (h h1 : Host) : Prop := h1.file = h.file ∧ h1.saves = h.saves

/-- An item whose title fills its slot with 100 bytes, none of them a terminator. -/
def long_item : Item := { title := List.replicate 100 65, username := [98, 111, 98], password := [] }

/-- The invariant of the spec on an item: each of its strings ends within its slot,
so has at most 99 content bytes. -/
def Item.valid (it : Item) : Prop :=
  strlen it.title < MAX_ITEMS_SIZE ∧ strlen it.username < MAX_ITEMS_SIZE ∧
    strlen it.password < MAX_ITEMS_SIZE

/-- The three invariants of the spec on a wallet: `0 <= size <= 100`, every live
item is valid, and the master password has 8 to 99 bytes. -/
def Wallet.valid (w : Wallet) : Prop :=
  w.size ≤ MAX_ITEMS ∧ (∀ it ∈ w.items.take w.size, it.valid) ∧
    8 ≤ strlen w.master_password ∧ strlen w.master_password < MAX_ITEMS_SIZE

/-! ## The memory image of a wallet and the sealing engine -/

/-- A string slot as it lies in memory: `MAX_ITEMS_SIZE` bytes. -/
def slot_layout (s : List Nat) : Prop := s.length = MAX_ITEMS_SIZE ∧ ∀ b ∈ s, b < 256

/-- An item as it lies in memory: three slots. -/
def Item.layout (it : Item) : Prop :=
  slot_layout it.title ∧ slot_layout it.username ∧ slot_layout it.password

/-- A wallet as it lies in memory: `MAX_ITEMS` items, a `size_t`, a slot. -/
def Wallet.layout (w : Wallet) : Prop :=
  w.items.length = MAX_ITEMS ∧ (∀ it ∈ w.items, it.layout) ∧ w.size < SIZE_T_RANGE ∧
    slot_layout w.master_password

/-- The string `s` in a slot: its bytes, then zero bytes up to `MAX_ITEMS_SIZE`. -/
def slot (s : List Nat) : List Nat := s ++ List.replicate (MAX_ITEMS_SIZE - s.length) 0

/-- The item `{"site", "bob", "p@ss"}` in memory: every string in its slot, with
zero bytes after it. -/
def site_slots : Item :=
  { title := slot site_item.title, username := slot site_item.username,
    password := slot site_item.password }

/-- The `n` bytes of a value, least significant first (x86-64 is little endian). -/
def le_bytes : Nat → Nat → List Nat
  | 0, _ => []
  | n + 1, v => v % 256 :: le_bytes n (v / 256)

/-- The value of bytes, least significant first. -/
def of_le_bytes : List Nat → Nat
  | [] => 0
  | b :: bs => b + 256 * of_le_bytes bs

/-- Every element is the value of a `char`. -/
def chars (s : List Nat) : Prop := ∀ b ∈ s, b < 256

/-- The slot that a list stands for: each value keeps its low 8 bits, zero bytes
fill the slot after the end of the list, and what does not fit in
`MAX_ITEMS_SIZE` bytes is cut. -/
def slot_image (s : List Nat) : List Nat :=
  (s.map (fun b => b % 256) ++ List.replicate MAX_ITEMS_SIZE 0).take MAX_ITEMS_SIZE

/-- The `struct Item` that an item stands for. -/
def Item.image (it : Item) : Item :=
  { title := slot_image it.title, username := slot_image it.username,
    password := slot_image it.password }

/-- The `struct Wallet` that a wallet stands for: `MAX_ITEMS` items in memory, a
size of 64 bits and the master password in its slot.  A wallet that is a
`struct Wallet` in memory is its own image (`wallet_image_of_layout`). -/
def Wallet.image (w : Wallet) : Wallet :=
  { items :=
      (w.items.map Item.image ++
        List.replicate MAX_ITEMS
          ({ title := slot_image [], username := slot_image [], password := slot_image [] } :
            Item)).take
        MAX_ITEMS
    size := w.size % SIZE_T_RANGE
    master_password := slot_image w.master_password }

/-- The bytes of a `struct Item`. -/
def item_bytes (it : Item) : List Nat := it.title ++ it.username ++ it.password

/-- The bytes of an array of items. -/
def items_bytes : List Item → List Nat
  | [] => []
  | it :: rest => item_bytes it ++ items_bytes rest

/-- The bytes of a `struct Wallet`: the items, the size, the master password and
4 bytes of padding, `sizeof(wallet_t)` bytes in all. -/
def wallet_bytes (w : Wallet) : List Nat :=
  items_bytes w.items ++ (le_bytes 8 w.size ++ (w.master_password ++ List.replicate 4 0))

/-- The `struct Item` at the start of a byte sequence. -/
def item_of_bytes (b : List Nat) : Item :=
  { title := b.take MAX_ITEMS_SIZE
    username := (b.drop MAX_ITEMS_SIZE).take MAX_ITEMS_SIZE
    password := (b.drop (2 * MAX_ITEMS_SIZE)).take MAX_ITEMS_SIZE }

/-- The array of `n` items at the start of a byte sequence. -/
def items_of_bytes : Nat → List Nat → List Item
  | 0, _ => []
  | n + 1, b => item_of_bytes b :: items_of_bytes n (b.drop (3 * MAX_ITEMS_SIZE))

/-- The `struct Wallet` that a byte sequence holds. -/
def wallet_of_bytes (b : List Nat) : Wallet :=
  { items := items_of_bytes MAX_ITEMS b
    size := of_le_bytes ((b.drop (MAX_ITEMS * (3 * MAX_ITEMS_SIZE))).take 8)
    master_password := (b.drop (MAX_ITEMS * (3 * MAX_ITEMS_SIZE) + 8)).take MAX_ITEMS_SIZE }

/-- The authenticated encryption under the key of the enclave: the cipher and the
function that computes the authentication data of a ciphertext. -/
structure Sealer where
  encrypt : List Nat → List Nat
  decrypt : List Nat → List Nat
  mac : List Nat → List Nat

/-- What the spec requires of the authenticated encryption on byte sequences: the
authentication data has the fixed size `overhead`, and decryption undoes
encryption. -/
def Sealer.sound (s : Sealer) (overhead : Nat) : Prop :=
  (∀ c, (s.mac c).length = overhead) ∧
    ∀ x, (∀ b ∈ x, b < 256) → s.decrypt (s.encrypt x) = x ∧
      (s.encrypt x).length = x.length

/-- Modelled from the spec: `seal_wallet` of `sealing/sealing.h`, whose source is
not among the sources.  Spec 4.1: the blob is "integrity/authentication metadata +
ciphertext of exactly one serialized Vault", of "deterministic size" ("fixed-size
plaintext"); the plaintext is the `sizeof(wallet_t)` bytes of the `struct Wallet`
that the wallet stands for, and the seal fails when the blob does not have the size
of the buffer it is given. -/
def spec_seal_wallet (s : Sealer) (wallet : Wallet) (sealed_size : Nat) : Option (List Nat) :=
  let ciphertext := s.encrypt (wallet_bytes wallet.image)
  let blob := s.mac ciphertext ++ ciphertext
  if blob.length = sealed_size then some blob else none

/-- Modelled from the spec: `unseal_wallet` of `sealing/sealing.h`, whose source
is not among the sources.  Spec 4.1: it "recomputes/verifies the authentication tag
before releasing any plaintext" and fails on a mismatch; "a mismatch between
expected and actual decrypted size is also Tamper". -/
def spec_unseal_wallet (s : Sealer) (overhead : Nat) (sealed_data : List Nat)
    (plaintext_size : Nat) : Option Wallet :=
  let ciphertext := sealed_data.drop overhead
  if s.mac ciphertext ≠ sealed_data.take overhead then none
  else if (s.decrypt ciphertext).length ≠ plaintext_size then none
  else some (wallet_of_bytes (s.decrypt ciphertext))

/-- A sealer for the examples: the cipher reverses the bytes, the authentication
data is 560 times the sum of the ciphertext modulo 256. -/
def sample_sealer : Sealer :=
  { encrypt := List.reverse
    decrypt := List.reverse
    mac := fun c => List.replicate 560 (c.sum % 256) }

/-- A wallet of 100 blank slots, all bytes zero. -/
def zero_wallet : Wallet :=
  { items := List.replicate 100 { title := slot [], username := slot [], password := slot [] }
    size := 0
    master_password := slot [] }

/-- A valid wallet as it lies in memory: master password `"longpass1"`, one live
item `{"site", "bob", "p@ss"}`, 99 blank slots. -/
def memory_wallet : Wallet :=
  { items :=
      site_slots :: List.replicate 99 { title := slot [], username := slot [], password := slot [] }
    size := 1
    master_password := slot longpass1 }

/-- An environment with the sealing engine modelled from the spec over
`sample_sealer`, OCALL stubs that return `SGX_SUCCESS`, and zeroed fresh memory. -/
def sealing_env : Env :=
  { seal_wallet := spec_seal_wallet sample_sealer
    unseal_wallet := spec_unseal_wallet sample_sealer 560
    sizeof_sgx_sealed_data_t := 560
    ocall_status := fun _ => SGX_SUCCESS
    ocall_ret := 0
    malloc_sealed := List.replicate 30672 0
    malloc_wallet := zero_wallet }

/-- The assumptions of the end-to-end scenario: every OCALL stub returns
`SGX_SUCCESS`, fresh memory has the size it was allocated with, and the sealing
engine seals every wallet to a blob of `sealed_size` bytes that it unseals to the
same wallet. -/
def Env.faithful (env : Env) : Prop :=
  (∀ o, env.ocall_status o = SGX_SUCCESS) ∧
  env.malloc_sealed.length = sealed_size env ∧
  env.malloc_wallet.layout ∧
  ∀ W : Wallet, W.layout →
    ∃ d, env.seal_wallet W (sealed_size env) = some d ∧ d.length = sealed_size env ∧
      env.unseal_wallet d sizeof_wallet_t = some W

/-! ## Properties -/

/-! ## Lemmas on the C library -/

theorem strcmp_eq_zero_iff (a b : List Nat) : strcmp a b = 0 ↔ c_str a = c_str b := by
  unfold c_str
  induction a generalizing b with
  | nil =>
    cases b with
    | nil => simp [strcmp]
    | cons y ys =>
      by_cases hy : y = 0
      · simp [strcmp, hy, List.takeWhile]
      · simp [strcmp, hy, List.takeWhile]
  | cons x xs ih =>
    cases b with
    | nil =>
      by_cases hx : x = 0
      · simp [strcmp, hx, List.takeWhile]
      · simp [strcmp, hx, List.takeWhile]
    | cons y ys =>
      by_cases hxy : x = y
      · subst hxy
        by_cases hx : x = 0
        · simp [strcmp, hx, List.takeWhile]
        · simp [strcmp, hx, List.takeWhile, ih]
      · by_cases hx : x = 0
        · have hy : y ≠ 0 := fun h => hxy (by rw [hx, h])
          simp [strcmp, hxy, hx, hy, List.takeWhile]
          omega
        · by_cases hy : y = 0
          · simp [strcmp, hxy, hx, hy, List.takeWhile]
          · simp [strcmp, hxy, hx, hy, List.takeWhile]
            omega

theorem strlen_eq_length_c_str (s : List Nat) : strlen s = (c_str s).length := by
  unfold c_str
  induction s with
  | nil => simp [strlen]
  | cons x xs ih =>
    by_cases hx : x = 0
    · simp [strlen, hx, List.takeWhile]
    · simp [strlen, hx, List.takeWhile, ih]

/-! ## Lemmas on the steps shared by the ECALLs -/

theorem opened_file (env : Env) (h : Host) : (opened env h).file = h.file := rfl

theorem opened_saves (env : Env) (h : Host) : (opened env h).saves = h.saves := by
  simp [opened, Host.saves, Host.record, Event.is_save, List.countP_append]

theorem load_stub_success {env : Env} (h : Host)
    (hs : env.ocall_status Ocall.load_wallet = SGX_SUCCESS) :
    enclave_t_ocall_load_wallet env h env.malloc_sealed (sealed_size env) =
      { status := SGX_SUCCESS
        ret := if h.file.isSome = true then 0 else 1
        sealed_data := loaded_data env h
        host := h.record (Event.load (sealed_size env)) } := by
  cases hfile : h.file with
  | none =>
    simp [enclave_t_ocall_load_wallet, hs, ocall_load_wallet, Host.record, hfile, loaded_data]
  | some f =>
    simp [enclave_t_ocall_load_wallet, hs, ocall_load_wallet, Host.record, hfile, loaded_data]

theorem load_stub_failure {env : Env} (h : Host)
    (hs : env.ocall_status Ocall.load_wallet ≠ SGX_SUCCESS) :
    enclave_t_ocall_load_wallet env h env.malloc_sealed (sealed_size env) =
      { status := env.ocall_status Ocall.load_wallet
        ret := env.ocall_ret
        sealed_data := env.malloc_sealed
        host := h } := by
  simp [enclave_t_ocall_load_wallet, hs]

theorem load_and_unseal_of_stored {env : Env} {h : Host} {V : Wallet}
    (hV : stored_wallet env h = some V) : load_and_unseal env h = Loaded.ok V (opened env h) := by
  unfold stored_wallet at hV
  split at hV
  · rename_i hc
    obtain ⟨hs, hf⟩ := hc
    simp only [load_and_unseal, load_stub_success h hs, hf, unseal_loaded, hV, opened]
    simp
  · simp at hV

theorem show_load_and_unseal_of_stored {env : Env} {h : Host} {V : Wallet}
    (hV : stored_wallet env h = some V) :
    show_load_and_unseal env h = Loaded.ok V (opened env h) := by
  unfold stored_wallet at hV
  split at hV
  · rename_i hc
    obtain ⟨hs, hf⟩ := hc
    simp only [show_load_and_unseal, load_stub_success h hs, hf, unseal_loaded, hV, opened]
    simp [SGX_SUCCESS]
  · simp at hV

theorem unsaved_refl (h : Host) : unsaved h h := ⟨rfl, rfl⟩

theorem unsaved_opened (env : Env) (h : Host) : unsaved h (opened env h) :=
  ⟨opened_file env h, opened_saves env h⟩

theorem unsaved_record_load (h : Host) (n : Nat) : unsaved h (h.record (Event.load n)) := by
  simp [unsaved, Host.saves, Host.record, Event.is_save, List.countP_append]

theorem unsaved_record_unseal (h : Host) (d : List Nat) (n : Nat) :
    unsaved h (h.record (Event.unseal d n)) := by
  simp [unsaved, Host.saves, Host.record, Event.is_save, List.countP_append]

theorem unsaved_record_seal (h : Host) (w : Wallet) (n : Nat) :
    unsaved h (h.record (Event.seal w n)) := by
  simp [unsaved, Host.saves, Host.record, Event.is_save, List.countP_append]

theorem unsaved_record_is_wallet (h : Host) : unsaved h (h.record Event.is_wallet) := by
  simp [unsaved, Host.saves, Host.record, Event.is_save, List.countP_append]

theorem unsaved_trans {h h1 h2 : Host} (a : unsaved h h1) (b : unsaved h1 h2) : unsaved h h2 :=
  ⟨b.1.trans a.1, b.2.trans a.2⟩

/-- Whatever the steps "Load wallet" and "Unseal wallet" produce, no save has run
and the file is as before; they fail only with the load or the unseal code. -/
theorem load_and_unseal_cases (env : Env) (h : Host) :
    (∃ h1, load_and_unseal env h = Loaded.fail Code.ERR_CANNOT_LOAD_WALLET h1 ∧ unsaved h h1) ∨
    (∃ h1, load_and_unseal env h = Loaded.fail Code.ERR_FAIL_UNSEAL h1 ∧ unsaved h h1) ∨
    (∃ V h1, load_and_unseal env h = Loaded.ok V h1 ∧ unsaved h h1) := by
  by_cases hs : env.ocall_status Ocall.load_wallet = SGX_SUCCESS
  · by_cases hf : h.file.isSome = true
    · cases hu : env.unseal_wallet (loaded_data env h) sizeof_wallet_t with
      | none =>
        right; left
        refine ⟨opened env h, ?_, unsaved_opened env h⟩
        simp only [load_and_unseal, load_stub_success h hs, hf, unseal_loaded, hu, opened]
        simp
      | some V =>
        right; right
        refine ⟨V, opened env h, ?_, unsaved_opened env h⟩
        simp only [load_and_unseal, load_stub_success h hs, hf, unseal_loaded, hu, opened]
        simp
    · left
      refine ⟨h.record (Event.load (sealed_size env)), ?_, unsaved_record_load h _⟩
      simp only [load_and_unseal, load_stub_success h hs, hf]
      simp
  · left
    refine ⟨h, ?_, unsaved_refl h⟩
    simp only [load_and_unseal, load_stub_failure h hs]
    simp [hs]

/-- The same for the steps "Load wallet" and "Unseal wallet" of `ecall_show_wallet`. -/
theorem show_load_and_unseal_cases (env : Env) (h : Host) :
    (∃ h1, show_load_and_unseal env h = Loaded.fail Code.ERR_CANNOT_LOAD_WALLET h1 ∧
      unsaved h h1) ∨
    (∃ h1, show_load_and_unseal env h = Loaded.fail Code.ERR_FAIL_UNSEAL h1 ∧ unsaved h h1) ∨
    (∃ V h1, show_load_and_unseal env h = Loaded.ok V h1 ∧ unsaved h h1) := by
  by_cases hs : env.ocall_status Ocall.load_wallet = SGX_SUCCESS
  · cases hu : env.unseal_wallet (loaded_data env h) sizeof_wallet_t with
    | none =>
      right; left
      refine ⟨opened env h, ?_, unsaved_opened env h⟩
      simp only [show_load_and_unseal, load_stub_success h hs, unseal_loaded, hu, opened]
      simp [SGX_SUCCESS]
    | some V =>
      right; right
      refine ⟨V, opened env h, ?_, unsaved_opened env h⟩
      simp only [show_load_and_unseal, load_stub_success h hs, unseal_loaded, hu, opened]
      simp [SGX_SUCCESS]
  · left
    refine ⟨h, ?_, unsaved_refl h⟩
    simp only [show_load_and_unseal, load_stub_failure h hs]
    simp [hs]

/-- After the steps "Seal wallet" and "Save wallet" at most one save has run; with
the code `ERR_FAIL_SEAL` none has, and no other failure code is possible. -/
theorem seal_and_save_cases (env : Env) (h : Host) (w : Wallet) :
    (seal_and_save env h w).host.saves ≤ h.saves + 1 ∧
    ((seal_and_save env h w).ret = Code.RET_SUCCESS ∨
     (seal_and_save env h w).ret = Code.ERR_CANNOT_SAVE_WALLET ∨
     ((seal_and_save env h w).ret = Code.ERR_FAIL_SEAL ∧
       unsaved h (seal_and_save env h w).host)) := by
  unfold seal_and_save
  cases hseal : env.seal_wallet w (sealed_size env) with
  | none =>
    simp only []
    refine ⟨?_, Or.inr (Or.inr ⟨trivial, unsaved_record_seal h w _⟩)⟩
    rw [(unsaved_record_seal h w _).2]
    omega
  | some d =>
    simp only []
    by_cases hs : env.ocall_status Ocall.save_wallet = SGX_SUCCESS
    · by_cases hw : h.write_fails = true
      · simp [enclave_t_ocall_save_wallet, hs, ocall_save_wallet, Host.record, hw, Host.saves,
          List.countP_append, Event.is_save]
      · simp [enclave_t_ocall_save_wallet, hs, ocall_save_wallet, Host.record, hw, Host.saves,
          List.countP_append, Event.is_save]
    · simp [enclave_t_ocall_save_wallet, hs, Host.record, Host.saves,
        List.countP_append, Event.is_save]

theorem strcmp_ne_zero_of_c_str_ne {a b : List Nat} (hne : c_str b ≠ c_str a) :
    strcmp a b ≠ 0 := by
  rw [Ne, strcmp_eq_zero_iff]
  exact fun e => hne e.symm

theorem strcmp_eq_zero_of_c_str_eq {a b : List Nat} (he : c_str b = c_str a) :
    strcmp a b = 0 := by
  rw [strcmp_eq_zero_iff]
  exact he.symm

/-! ## C1: the authorization gate -/

/-- C1: when the persisted blob loads and unseals to a wallet `V` and the supplied
password is not the string held by `V.master_password`, each of
`ecall_show_wallet`, `ecall_add_item`, `ecall_remove_item` (index in `[0, 100)`) and
`ecall_change_master_password` (new password of 8 to 99 bytes) returns
`ERR_WRONG_MASTER_PASSWORD` and ends in the host `opened env h`: the load and the
unseal were recorded, no save was, and the file is the one before the call.  The
wallet of the caller of `ecall_show_wallet` is not written. -/
theorem wrong_password_unauthorized (env : Env) (h : Host) (V : Wallet)
    (master_password : List Nat)
    (hV : stored_wallet env h = some V)
    (hpw : c_str master_password ≠ c_str V.master_password) :
    (∀ wallet wallet_size,
      ecall_show_wallet env h master_password wallet wallet_size =
        { ret := Code.ERR_WRONG_MASTER_PASSWORD, wallet := wallet, host := opened env h }) ∧
    (∀ item item_size,
      ecall_add_item env h master_password item item_size =
        some { ret := Code.ERR_WRONG_MASTER_PASSWORD, host := opened env h }) ∧
    (∀ index : Int, 0 ≤ index → index < 100 →
      ecall_remove_item env h master_password index =
        some { ret := Code.ERR_WRONG_MASTER_PASSWORD, host := opened env h }) ∧
    (∀ new_password, 8 ≤ strlen new_password → strlen new_password ≤ 99 →
      ecall_change_master_password env h master_password new_password =
        { ret := Code.ERR_WRONG_MASTER_PASSWORD, host := opened env h }) ∧
    unsaved h (opened env h) ∧
    (opened env h).trace =
      h.trace ++ [Event.load (sealed_size env), Event.unseal (loaded_data env h) sizeof_wallet_t] := by
  have hne : strcmp V.master_password master_password ≠ 0 := strcmp_ne_zero_of_c_str_ne hpw
  refine ⟨?_, ?_, ?_, ?_, unsaved_opened env h, ?_⟩
  · intro wallet wallet_size
    simp [ecall_show_wallet, show_load_and_unseal_of_stored hV, hne]
  · intro item item_size
    simp [ecall_add_item, load_and_unseal_of_stored hV, hne]
  · intro index h0 h1
    have hg : ¬ (index < 0 ∨ index ≥ (MAX_ITEMS : Int)) := by
      simp only [MAX_ITEMS]
      omega
    simp [ecall_remove_item, hg, load_and_unseal_of_stored hV, hne]
  · intro new_password h8 h99
    have hg : ¬ (strlen new_password < 8 ∨ strlen new_password + 1 > MAX_ITEMS_SIZE) := by
      simp only [MAX_ITEMS_SIZE]
      omega
    simp [ecall_change_master_password, hg, load_and_unseal_of_stored hV, hne]
  · simp [opened, Host.record]

/-- C1 at the blob `[1]`, which unseals to `sample_wallet`, and the password
`"wrongpass"`. -/
theorem wrong_password_unauthorized_witness :
    stored_wallet (sample_env sample_wallet) sample_host = some sample_wallet ∧
    c_str wrongpass ≠ c_str sample_wallet.master_password ∧
    ecall_remove_item (sample_env sample_wallet) sample_host wrongpass 0 =
      some { ret := Code.ERR_WRONG_MASTER_PASSWORD,
             host := opened (sample_env sample_wallet) sample_host } :=
  ⟨rfl, by decide,
    (wrong_password_unauthorized (sample_env sample_wallet) sample_host sample_wallet wrongpass
      rfl (by decide)).2.2.1 0 (by decide) (by decide)⟩

/-! ## C2: the load test of `ecall_show_wallet` -/

/-- C2: `ecall_show_wallet` tests the status of the stub twice and never the value
returned by the host.  When the stub of the load returns `SGX_SUCCESS` and the
wallet file cannot be opened, the host load returns 1, yet `ecall_show_wallet`
does not return `ERR_CANNOT_LOAD_WALLET`: it calls `unseal_wallet` on the
uninitialised buffer.  In the same state `ecall_change_master_password`,
`ecall_add_item` and `ecall_remove_item` return `ERR_CANNOT_LOAD_WALLET` right
after the load. -/
theorem show_ignores_failed_load (env : Env) (h : Host) (master_password : List Nat)
    (wallet : Wallet) (wallet_size : Nat)
    (hs : env.ocall_status Ocall.load_wallet = SGX_SUCCESS) (hfile : h.file = none) :
    (enclave_t_ocall_load_wallet env h env.malloc_sealed (sealed_size env)).ret = 1 ∧
    (ecall_show_wallet env h master_password wallet wallet_size).ret ≠
      Code.ERR_CANNOT_LOAD_WALLET ∧
    (ecall_show_wallet env h master_password wallet wallet_size).host.trace =
      h.trace ++ [Event.load (sealed_size env), Event.unseal env.malloc_sealed sizeof_wallet_t] ∧
    (∀ new_password, 8 ≤ strlen new_password → strlen new_password ≤ 99 →
      ecall_change_master_password env h master_password new_password =
        { ret := Code.ERR_CANNOT_LOAD_WALLET, host := h.record (Event.load (sealed_size env)) }) ∧
    (∀ item item_size,
      ecall_add_item env h master_password item item_size =
        some { ret := Code.ERR_CANNOT_LOAD_WALLET,
               host := h.record (Event.load (sealed_size env)) }) ∧
    (∀ index : Int, 0 ≤ index → index < 100 →
      ecall_remove_item env h master_password index =
        some { ret := Code.ERR_CANNOT_LOAD_WALLET,
               host := h.record (Event.load (sealed_size env)) }) := by
  have hl : load_and_unseal env h =
      Loaded.fail Code.ERR_CANNOT_LOAD_WALLET (h.record (Event.load (sealed_size env))) := by
    simp only [load_and_unseal, load_stub_success h hs, hfile]
    simp
  have hd : loaded_data env h = env.malloc_sealed := by simp [loaded_data, hfile]
  refine ⟨?_, ?_, ?_, ?_, ?_, ?_⟩
  · simp [load_stub_success h hs, hfile]
  · simp only [ecall_show_wallet, show_load_and_unseal, load_stub_success h hs, unseal_loaded, hd]
    cases env.unseal_wallet env.malloc_sealed sizeof_wallet_t with
    | none => simp [SGX_SUCCESS]
    | some V =>
      by_cases hc : strcmp V.master_password master_password = 0
      · simp [SGX_SUCCESS, hc]
      · simp [SGX_SUCCESS, hc]
  · simp only [ecall_show_wallet, show_load_and_unseal, load_stub_success h hs, unseal_loaded, hd]
    cases env.unseal_wallet env.malloc_sealed sizeof_wallet_t with
    | none => simp [SGX_SUCCESS, Host.record]
    | some V =>
      by_cases hc : strcmp V.master_password master_password = 0
      · simp [SGX_SUCCESS, hc, Host.record]
      · simp [SGX_SUCCESS, hc, Host.record]
  · intro new_password h8 h99
    have hg : ¬ (strlen new_password < 8 ∨ strlen new_password + 1 > MAX_ITEMS_SIZE) := by
      simp only [MAX_ITEMS_SIZE]
      omega
    simp [ecall_change_master_password, hg, hl]
  · intro item item_size
    simp [ecall_add_item, hl]
  · intro index h0 h1
    have hg : ¬ (index < 0 ∨ index ≥ (MAX_ITEMS : Int)) := by
      simp only [MAX_ITEMS]
      omega
    simp [ecall_remove_item, hg, hl]

/-- C2 on a host without a wallet file. -/
theorem show_ignores_failed_load_witness :
    (sample_env sample_wallet).ocall_status Ocall.load_wallet = SGX_SUCCESS ∧
    empty_host.file = none ∧
    (ecall_show_wallet (sample_env sample_wallet) empty_host longpass1 sample_wallet 0).ret ≠
      Code.ERR_CANNOT_LOAD_WALLET :=
  ⟨rfl, rfl,
    (show_ignores_failed_load (sample_env sample_wallet) empty_host longpass1 sample_wallet 0
      rfl rfl).2.1⟩

/-- C2 in general: `ecall_show_wallet` returns `ERR_CANNOT_LOAD_WALLET` exactly when
the stub of the load does not return `SGX_SUCCESS`, whatever the host load
returned. -/
theorem show_load_failure_iff (env : Env) (h : Host) (master_password : List Nat)
    (wallet : Wallet) (wallet_size : Nat) :
    (ecall_show_wallet env h master_password wallet wallet_size).ret =
        Code.ERR_CANNOT_LOAD_WALLET ↔
      env.ocall_status Ocall.load_wallet ≠ SGX_SUCCESS := by
  by_cases hs : env.ocall_status Ocall.load_wallet = SGX_SUCCESS
  · simp only [ecall_show_wallet, show_load_and_unseal, load_stub_success h hs, unseal_loaded]
    cases env.unseal_wallet (loaded_data env h) sizeof_wallet_t with
    | none => simp [SGX_SUCCESS, hs]
    | some V =>
      by_cases hc : strcmp V.master_password master_password = 0
      · simp [SGX_SUCCESS, hc, hs]
      · simp [SGX_SUCCESS, hc, hs]
  · simp only [ecall_show_wallet, show_load_and_unseal, load_stub_failure h hs]
    simp [hs]

/-! ## C3: the length check of `ecall_add_item` -/

theorem strlen_replicate (n c : Nat) (hc : c ≠ 0) : strlen (List.replicate n c) = n := by
  induction n with
  | zero => simp [strlen]
  | succ k ih => simp [List.replicate_succ, strlen, hc, ih]

theorem long_item_title_too_long : strlen long_item.title > 99 := by
  show strlen (List.replicate 100 65) > 99
  rw [strlen_replicate 100 65 (by decide)]
  decide

/-- C3 as stated fails: with an item whose title has 100 content bytes,
`ecall_add_item` performs the host load and returns `ERR_CANNOT_LOAD_WALLET` when
there is no wallet file, and `ERR_WRONG_MASTER_PASSWORD` when the password is
wrong. -/
theorem item_too_long_is_checked_late :
    strlen long_item.title > 99 ∧
    ecall_add_item (sample_env sample_wallet) empty_host longpass1 long_item 300 =
      some { ret := Code.ERR_CANNOT_LOAD_WALLET,
             host := { file := none, write_fails := false, trace := [Event.load 30672] } } ∧
    ecall_add_item (sample_env sample_wallet) sample_host wrongpass long_item 300 =
      some { ret := Code.ERR_WRONG_MASTER_PASSWORD,
             host := { file := some [1], write_fails := false,
                       trace := [Event.load 30672, Event.unseal [1] 30112] } } := by
  refine ⟨long_item_title_too_long, ?_, ?_⟩
  · rfl
  · rfl

/-- What the steps "Load wallet" and "Unseal wallet" leave behind, by the status
of the stub of the load.  With `SGX_SUCCESS` the host load has run: the host is
the one after the load alone (the file did not open) or after the load and the
unseal.  With any other status the host load has not run and the steps fail with
`ERR_CANNOT_LOAD_WALLET` on the untouched host. -/
theorem load_and_unseal_by_status (env : Env) (h : Host) :
    (env.ocall_status Ocall.load_wallet = SGX_SUCCESS →
      load_and_unseal env h =
          Loaded.fail Code.ERR_CANNOT_LOAD_WALLET (h.record (Event.load (sealed_size env))) ∨
        load_and_unseal env h = Loaded.fail Code.ERR_FAIL_UNSEAL (opened env h) ∨
        ∃ V, load_and_unseal env h = Loaded.ok V (opened env h)) ∧
    (env.ocall_status Ocall.load_wallet ≠ SGX_SUCCESS →
      load_and_unseal env h = Loaded.fail Code.ERR_CANNOT_LOAD_WALLET h) := by
  constructor
  · intro hs
    by_cases hf : h.file.isSome = true
    · cases hu : env.unseal_wallet (loaded_data env h) sizeof_wallet_t with
      | none =>
        right; left
        simp only [load_and_unseal, load_stub_success h hs, hf, unseal_loaded, hu, opened]
        simp
      | some V =>
        right; right
        refine ⟨V, ?_⟩
        simp only [load_and_unseal, load_stub_success h hs, hf, unseal_loaded, hu, opened]
        simp
    · left
      simp only [load_and_unseal, load_stub_success h hs, hf]
      simp
  · intro hs
    simp only [load_and_unseal, load_stub_failure h hs]
    simp [hs]

/-- C3 as amended: the length check is step 4 of `ecall_add_item`, after the load,
the unseal and the password check.  For an item with a field of more than 99
content bytes, the call returns `ERR_ITEM_TOO_LONG` when the blob loads and unseals
and the password is right; in every state and for every password it returns one of
the codes of the steps 1 to 4, and no save runs.  The call of the load comes
first: when its stub returns `SGX_SUCCESS` the host load has run and is the first
entry that the call adds to the history; when the stub returns another status the
call returns `ERR_CANNOT_LOAD_WALLET` and the host is untouched. -/
theorem item_too_long_after_authorization (env : Env) (h : Host) (master_password : List Nat)
    (item : Item) (item_size : Nat)
    (hlong : strlen item.title > 99 ∨ strlen item.username > 99 ∨ strlen item.password > 99) :
    (∀ V, stored_wallet env h = some V → c_str master_password = c_str V.master_password →
      ecall_add_item env h master_password item item_size =
        some { ret := Code.ERR_ITEM_TOO_LONG, host := opened env h }) ∧
    (∃ o, ecall_add_item env h master_password item item_size = some o ∧ unsaved h o.host ∧
      (o.ret = Code.ERR_CANNOT_LOAD_WALLET ∨ o.ret = Code.ERR_FAIL_UNSEAL ∨
       o.ret = Code.ERR_WRONG_MASTER_PASSWORD ∨ o.ret = Code.ERR_ITEM_TOO_LONG) ∧
      (env.ocall_status Ocall.load_wallet = SGX_SUCCESS →
        ∃ t, o.host.trace = h.trace ++ Event.load (sealed_size env) :: t) ∧
      (env.ocall_status Ocall.load_wallet ≠ SGX_SUCCESS →
        o = { ret := Code.ERR_CANNOT_LOAD_WALLET, host := h })) := by
  have hg : strlen item.title + 1 > MAX_ITEMS_SIZE ∨ strlen item.username + 1 > MAX_ITEMS_SIZE ∨
      strlen item.password + 1 > MAX_ITEMS_SIZE := by
    simp only [MAX_ITEMS_SIZE]
    omega
  have htrace : (opened env h).trace =
      h.trace ++ Event.load (sealed_size env) ::
        [Event.unseal (loaded_data env h) sizeof_wallet_t] := by
    simp [opened, Host.record]
  constructor
  · intro V hV hpw
    have he : strcmp V.master_password master_password = 0 := strcmp_eq_zero_of_c_str_eq hpw
    simp only [ecall_add_item, load_and_unseal_of_stored hV, he, hg]
    simp
  · by_cases hs : env.ocall_status Ocall.load_wallet = SGX_SUCCESS
    · rcases (load_and_unseal_by_status env h).1 hs with hl | hl | ⟨V, hl⟩
      · exact ⟨{ ret := Code.ERR_CANNOT_LOAD_WALLET,
                 host := h.record (Event.load (sealed_size env)) },
          by simp only [ecall_add_item, hl], unsaved_record_load h _, Or.inl rfl,
          fun _ => ⟨[], rfl⟩, fun hn => absurd hs hn⟩
      · exact ⟨{ ret := Code.ERR_FAIL_UNSEAL, host := opened env h },
          by simp only [ecall_add_item, hl], unsaved_opened env h, Or.inr (Or.inl rfl),
          fun _ => ⟨_, htrace⟩, fun hn => absurd hs hn⟩
      · by_cases hc : strcmp V.master_password master_password = 0
        · refine ⟨{ ret := Code.ERR_ITEM_TOO_LONG, host := opened env h }, ?_,
            unsaved_opened env h, Or.inr (Or.inr (Or.inr rfl)), fun _ => ⟨_, htrace⟩,
            fun hn => absurd hs hn⟩
          simp only [ecall_add_item, hl, hc, hg]
          simp
        · refine ⟨{ ret := Code.ERR_WRONG_MASTER_PASSWORD, host := opened env h }, ?_,
            unsaved_opened env h, Or.inr (Or.inr (Or.inl rfl)), fun _ => ⟨_, htrace⟩,
            fun hn => absurd hs hn⟩
          simp only [ecall_add_item, hl]
          simp [hc]
    · have hl := (load_and_unseal_by_status env h).2 hs
      exact ⟨{ ret := Code.ERR_CANNOT_LOAD_WALLET, host := h },
        by simp only [ecall_add_item, hl], unsaved_refl h, Or.inl rfl,
        fun hy => absurd hy hs, fun _ => rfl⟩

/-- C3 as amended, at an item whose title has 100 content bytes: with the right
password the call returns `ERR_ITEM_TOO_LONG`, and the host load has run before. -/
theorem item_too_long_after_authorization_witness :
    (strlen long_item.title > 99 ∨ strlen long_item.username > 99 ∨
      strlen long_item.password > 99) ∧
    ecall_add_item (sample_env sample_wallet) sample_host longpass1 long_item 300 =
      some { ret := Code.ERR_ITEM_TOO_LONG,
             host := opened (sample_env sample_wallet) sample_host } ∧
    ∃ o, ecall_add_item (sample_env sample_wallet) sample_host longpass1 long_item 300 =
        some o ∧
      ∃ t, o.host.trace =
        sample_host.trace ++ Event.load (sealed_size (sample_env sample_wallet)) :: t :=
  ⟨Or.inl long_item_title_too_long,
    (item_too_long_after_authorization (sample_env sample_wallet) sample_host longpass1 long_item
      300 (Or.inl long_item_title_too_long)).1 sample_wallet rfl (by decide),
    (item_too_long_after_authorization (sample_env sample_wallet) sample_host longpass1 long_item
      300 (Or.inl long_item_title_too_long)).2.imp (fun _ ho => ⟨ho.1, ho.2.2.2.1 rfl⟩)⟩

/-! ## C4: the password policy -/

/-- C4: `ecall_create_wallet` and `ecall_change_master_password` return
`ERR_PASSWORD_OUT_OF_RANGE` exactly when the (new) password has fewer than 8 or more
than 99 bytes, and then they return before any call of the host or of the sealing
engine: the host, its file and its history are the ones before the call. -/
theorem password_policy (env : Env) (h : Host) (old_password p : List Nat) :
    ((ecall_create_wallet env h p).ret = Code.ERR_PASSWORD_OUT_OF_RANGE ↔
      (strlen p < 8 ∨ strlen p > 99)) ∧
    ((ecall_change_master_password env h old_password p).ret = Code.ERR_PASSWORD_OUT_OF_RANGE ↔
      (strlen p < 8 ∨ strlen p > 99)) ∧
    ((strlen p < 8 ∨ strlen p > 99) →
      ecall_create_wallet env h p = { ret := Code.ERR_PASSWORD_OUT_OF_RANGE, host := h } ∧
      ecall_change_master_password env h old_password p =
        { ret := Code.ERR_PASSWORD_OUT_OF_RANGE, host := h }) := by
  by_cases hr : strlen p < 8 ∨ strlen p > 99
  · have hg : strlen p < 8 ∨ strlen p + 1 > MAX_ITEMS_SIZE := by
      simp only [MAX_ITEMS_SIZE]
      omega
    have hc : ecall_create_wallet env h p = { ret := Code.ERR_PASSWORD_OUT_OF_RANGE, host := h } := by
      simp only [ecall_create_wallet, hg]
      simp
    have hp : ecall_change_master_password env h old_password p =
        { ret := Code.ERR_PASSWORD_OUT_OF_RANGE, host := h } := by
      simp only [ecall_change_master_password, hg]
      simp
    exact ⟨by simp [hc, hr], by simp [hp, hr], fun _ => ⟨hc, hp⟩⟩
  · have hg : ¬ (strlen p < 8 ∨ strlen p + 1 > MAX_ITEMS_SIZE) := by
      simp only [MAX_ITEMS_SIZE]
      omega
    refine ⟨?_, ?_, fun hh => absurd hh hr⟩
    · simp only [hr, iff_false]
      simp only [ecall_create_wallet, hg, if_false]
      by_cases he : (enclave_t_ocall_is_wallet env h).ret ≠ 0
      · simp [he]
      · simp only [he, if_false]
        rcases (seal_and_save_cases env (enclave_t_ocall_is_wallet env h).host
          { items := env.malloc_wallet.items, size := 0,
            master_password :=
              strncpy env.malloc_wallet.master_password p (strlen p + 1) }).2 with
          hh | hh | ⟨hh, _⟩ <;> simp [hh]
    · simp only [hr, iff_false]
      simp only [ecall_change_master_password, hg, if_false]
      rcases load_and_unseal_cases env h with ⟨h1, hl, _⟩ | ⟨h1, hl, _⟩ | ⟨V, h1, hl, _⟩
      · simp [hl]
      · simp [hl]
      · simp only [hl]
        by_cases hc : strcmp V.master_password old_password ≠ 0
        · simp [hc]
        · simp only [hc, if_false]
          rcases (seal_and_save_cases env h1
            { V with
              master_password := strncpy V.master_password p (strlen p + 1) }).2 with
            hh | hh | ⟨hh, _⟩ <;> simp [hh]

/-- C4 at `ChangePassword("longpass1", "short")`: the call returns
`ERR_PASSWORD_OUT_OF_RANGE` and leaves the host as it was. -/
theorem password_policy_witness :
    (strlen short < 8 ∨ strlen short > 99) ∧
    ecall_change_master_password (sample_env sample_wallet) sample_host longpass1 short =
      { ret := Code.ERR_PASSWORD_OUT_OF_RANGE, host := sample_host } :=
  ⟨by decide,
    ((password_policy (sample_env sample_wallet) sample_host longpass1 short).2.2
      (by decide)).2⟩

/-! ## Lemmas on the item array and on the loop of `ecall_remove_item` -/

theorem size_t_of_int_natCast (n : Nat) (hn : n < SIZE_T_RANGE) : size_t_of_int (n : Int) = n := by
  unfold size_t_of_int
  unfold SIZE_T_RANGE at hn ⊢
  omega

theorem items_get_natCast (items : List Item) (n : Nat) :
    items_get items (n : Int) = if n < MAX_ITEMS then items[n]? else none := by
  unfold items_get
  by_cases hn : n < MAX_ITEMS
  · have hc : 0 ≤ (n : Int) ∧ (n : Int) < (MAX_ITEMS : Int) := ⟨by omega, by exact_mod_cast hn⟩
    simp [hc, hn]
  · have hc : ¬ (0 ≤ (n : Int) ∧ (n : Int) < (MAX_ITEMS : Int)) := by
      intro hh
      exact hn (by exact_mod_cast hh.2)
    simp [hc, hn]

theorem items_set_natCast (items : List Item) (n : Nat) (x : Item) :
    items_set items (n : Int) x =
      if n < MAX_ITEMS ∧ n < items.length then some (items.set n x) else none := by
  unfold items_set
  by_cases hn : n < MAX_ITEMS ∧ n < items.length
  · have hc : 0 ≤ (n : Int) ∧ (n : Int) < (MAX_ITEMS : Int) ∧ (n : Int).toNat < items.length :=
      ⟨by omega, by exact_mod_cast hn.1, by simpa using hn.2⟩
    simp [hc, hn]
  · have hc : ¬ (0 ≤ (n : Int) ∧ (n : Int) < (MAX_ITEMS : Int) ∧
        (n : Int).toNat < items.length) := by
      intro hh
      exact hn ⟨by exact_mod_cast hh.2.1, by simpa using hh.2.2⟩
    simp [hc, hn]

theorem size_minus_one (wallet_size : Nat) (h1 : 1 ≤ wallet_size)
    (h2 : wallet_size < SIZE_T_RANGE) :
    (wallet_size + SIZE_T_RANGE - 1) % SIZE_T_RANGE = wallet_size - 1 := by
  unfold SIZE_T_RANGE at h2 ⊢
  omega

/-- The loop of `ecall_remove_item` on a wallet of at most 100 items, started at a
position `i` below `wallet_size`: it ends without leaving the array, after
`wallet_size - 1 - i` rounds, and it has moved each item of the positions
`(i, wallet_size)` one position down and changed nothing else. -/
theorem remove_loop_spec (wallet_size : Nat) (hws : wallet_size ≤ MAX_ITEMS) :
    ∀ (fuel i : Nat) (items : List Item), items.length = MAX_ITEMS → i < wallet_size →
      wallet_size - i ≤ fuel →
      ∃ R, remove_loop wallet_size fuel (i : Int) items = some R ∧ R.length = MAX_ITEMS ∧
        ∀ j, R[j]? = if i ≤ j ∧ j < wallet_size - 1 then items[j + 1]? else items[j]? := by
  have hM : MAX_ITEMS = 100 := rfl
  have hbound : (wallet_size + SIZE_T_RANGE - 1) % SIZE_T_RANGE = wallet_size - 1 ∨
      wallet_size = 0 := by
    by_cases h0 : wallet_size = 0
    · exact Or.inr h0
    · exact Or.inl (size_minus_one wallet_size (by omega) (by unfold SIZE_T_RANGE; omega))
  intro fuel
  induction fuel with
  | zero =>
    intro i items _ hi hf
    omega
  | succ fuel ih =>
    intro i items hlen hi hf
    have hb : (wallet_size + SIZE_T_RANGE - 1) % SIZE_T_RANGE = wallet_size - 1 := by
      rcases hbound with hb | hb
      · exact hb
      · omega
    have hconv : size_t_of_int (i : Int) = i :=
      size_t_of_int_natCast i (by unfold SIZE_T_RANGE; omega)
    rw [remove_loop, hb, hconv]
    by_cases hc : i < wallet_size - 1
    · have hcast : ((i : Int) + 1) = ((i + 1 : Nat) : Int) := by push_cast; rfl
      have hget : (i + 1 < MAX_ITEMS) := by omega
      have hlt : i + 1 < items.length := by omega
      have hsome : items[i + 1]? = some items[i + 1] := List.getElem?_eq_getElem hlt
      have hset : i < MAX_ITEMS ∧ i < items.length := ⟨by omega, by omega⟩
      obtain ⟨R, hR, hRlen, hRj⟩ := ih (i + 1) (items.set i items[i + 1])
        (by simpa using hlen) (by omega) (by omega)
      refine ⟨R, ?_, hRlen, ?_⟩
      · rw [if_pos hc, hcast, items_get_natCast, if_pos hget, hsome]
        simp only []
        rw [items_set_natCast, if_pos hset]
        simp only []
        rw [← hcast] at hR ⊢
        exact hR
      · intro j
        rw [hRj j]
        by_cases hji : j = i
        · subst hji
          have hn : ¬ (j + 1 ≤ j ∧ j < wallet_size - 1) := by omega
          rw [if_neg hn, if_pos ⟨le_refl j, hc⟩, List.getElem?_set, if_pos rfl,
            if_pos (by omega), hsome]
        · by_cases hr : i ≤ j ∧ j < wallet_size - 1
          · have hr2 : i + 1 ≤ j ∧ j < wallet_size - 1 := by omega
            rw [if_pos hr, if_pos hr2, List.getElem?_set_ne (by omega)]
          · have hr2 : ¬ (i + 1 ≤ j ∧ j < wallet_size - 1) := by omega
            rw [if_neg hr, if_neg hr2, List.getElem?_set_ne (by omega)]
    · refine ⟨items, by rw [if_neg hc], hlen, ?_⟩
      intro j
      have hn : ¬ (i ≤ j ∧ j < wallet_size - 1) := by omega
      rw [if_neg hn]

/-- The bound of `MAX_ITEMS + 1` tests under which `remove_item_update` runs the
loop is never what stops it: from a position that is not negative, a larger bound
gives the same result, because the loop leaves the array before. -/
theorem remove_loop_bound (wallet_size : Nat) :
    ∀ (fuel i : Nat) (items : List Item), 1 ≤ fuel → MAX_ITEMS ≤ fuel + i →
      remove_loop wallet_size (fuel + 1) (i : Int) items =
        remove_loop wallet_size fuel (i : Int) items := by
  have hM : MAX_ITEMS = 100 := rfl
  intro fuel
  induction fuel with
  | zero =>
    intro i items h1 _
    omega
  | succ k ih =>
    intro i items _ hk
    have hcast : ((i : Int) + 1) = ((i + 1 : Nat) : Int) := by push_cast; rfl
    rw [remove_loop, remove_loop]
    by_cases hc : size_t_of_int (i : Int) < (wallet_size + SIZE_T_RANGE - 1) % SIZE_T_RANGE
    · rw [if_pos hc, if_pos hc, hcast, items_get_natCast]
      by_cases hget : i + 1 < MAX_ITEMS
      · rw [if_pos hget]
        cases items[i + 1]? with
        | none => rfl
        | some next =>
          simp only []
          cases items_set items (i : Int) next with
          | none => rfl
          | some items1 =>
            simp only []
            exact ih (i + 1) items1 (by omega) (by omega)
      · rw [if_neg hget]
    · rw [if_neg hc, if_neg hc]

/-- Step 5 of `ecall_remove_item` on a wallet of 100 slots and at most 100 items,
at an index below its size: the items above the index move one position down, the
size decreases by one, nothing else changes. -/
theorem remove_item_update_spec (V : Wallet) (index : Int)
    (hlen : V.items.length = MAX_ITEMS) (hsize : V.size ≤ MAX_ITEMS)
    (h0 : 0 ≤ index) (hi : index < (V.size : Int)) :
    ∃ W, remove_item_update V index = Update.done W ∧
      W.size = V.size - 1 ∧ W.master_password = V.master_password ∧
      W.items.length = MAX_ITEMS ∧
      ∀ j, W.items[j]? =
        if index.toNat ≤ j ∧ j < V.size - 1 then V.items[j + 1]? else V.items[j]? := by
  have hM : MAX_ITEMS = 100 := rfl
  obtain ⟨i, rfl⟩ := Int.eq_ofNat_of_zero_le h0
  have hi2 : i < V.size := by exact_mod_cast hi
  obtain ⟨R, hR, hRlen, hRj⟩ :=
    remove_loop_spec V.size hsize (MAX_ITEMS + 1) i V.items hlen hi2 (by omega)
  refine ⟨{ V with items := R, size := (V.size + SIZE_T_RANGE - 1) % SIZE_T_RANGE }, ?_,
    size_minus_one V.size (by omega) (by unfold SIZE_T_RANGE; omega), rfl, hRlen, ?_⟩
  · have hg : ¬ (size_t_of_int (i : Int) ≥ V.size) := by
      rw [size_t_of_int_natCast i (by unfold SIZE_T_RANGE; omega)]
      omega
    simp only [remove_item_update, hg, if_false, hR]
  · intro j
    simpa using hRj j

/-- When `seal_wallet` succeeds on `w`, the stub of the save returns `SGX_SUCCESS`
and the file opens for writing, the steps "Seal wallet" and "Save wallet" return
`RET_SUCCESS` and the file holds the first `sealed_size` bytes of the blob. -/
theorem seal_and_save_success (env : Env) (h : Host) (w : Wallet) (d : List Nat)
    (hseal : env.seal_wallet w (sealed_size env) = some d)
    (hs : env.ocall_status Ocall.save_wallet = SGX_SUCCESS)
    (hw : h.write_fails = false) :
    seal_and_save env h w = { ret := Code.RET_SUCCESS, host := saved env h w d } := by
  simp [seal_and_save, hseal, enclave_t_ocall_save_wallet, hs, ocall_save_wallet, Host.record,
    hw, saved]

/-- The history after the steps "Seal wallet" and "Save wallet": the call of
`seal_wallet` on `w`, then the save of the blob when there is one and the stub lets
the call through. -/
theorem seal_and_save_trace (env : Env) (h : Host) (w : Wallet) :
    (seal_and_save env h w).host.trace =
      h.trace ++ Event.seal w (sealed_size env) ::
        (match env.seal_wallet w (sealed_size env) with
         | none => []
         | some d =>
           if env.ocall_status Ocall.save_wallet = SGX_SUCCESS then
             [Event.save d (sealed_size env)]
           else []) := by
  unfold seal_and_save
  cases hseal : env.seal_wallet w (sealed_size env) with
  | none => simp [Host.record]
  | some d =>
    by_cases hs : env.ocall_status Ocall.save_wallet = SGX_SUCCESS
    · by_cases hw : h.write_fails = true
      · simp [enclave_t_ocall_save_wallet, hs, ocall_save_wallet, Host.record, hw]
      · simp [enclave_t_ocall_save_wallet, hs, ocall_save_wallet, Host.record, hw]
    · simp [enclave_t_ocall_save_wallet, hs, Host.record]

/-! ## C5: removal preserves order -/

/-- C5: when the persisted blob loads and unseals to a wallet `V` of at most 100
items, the password is right and `0 ≤ index < V.size`, `ecall_remove_item` goes on
to seal and save a wallet `W` with `W.size = V.size - 1`, the master password of
`V`, the items of `V` at the positions below `index`, and at each position `j` of
`[index, V.size - 1)` the item of `V` at `j + 1`: the live items of `W` are the
live items of `V` with the one at `index` erased.  When the seal and the save
succeed, the call returns `RET_SUCCESS` and the file holds the blob of `W`. -/
theorem remove_preserves_order (env : Env) (h : Host) (V : Wallet)
    (master_password : List Nat) (index : Int)
    (hV : stored_wallet env h = some V)
    (hlen : V.items.length = MAX_ITEMS) (hsize : V.size ≤ 100)
    (hpw : c_str master_password = c_str V.master_password)
    (h0 : 0 ≤ index) (hi : index < (V.size : Int)) :
    ∃ W, ecall_remove_item env h master_password index =
        some (seal_and_save env (opened env h) W) ∧
      W.size = V.size - 1 ∧ W.master_password = V.master_password ∧
      (∀ j, j < index.toNat → W.items[j]? = V.items[j]?) ∧
      (∀ j, index.toNat ≤ j → j < V.size - 1 → W.items[j]? = V.items[j + 1]?) ∧
      W.items.take W.size = (V.items.take V.size).eraseIdx index.toNat ∧
      (∀ d, env.seal_wallet W (sealed_size env) = some d →
        env.ocall_status Ocall.save_wallet = SGX_SUCCESS → h.write_fails = false →
        ecall_remove_item env h master_password index =
          some { ret := Code.RET_SUCCESS, host := saved env (opened env h) W d }) := by
  obtain ⟨W, hW, hWsize, hWpw, _, hWj⟩ := remove_item_update_spec V index hlen hsize h0 hi
  have hg : ¬ (index < 0 ∨ index ≥ (MAX_ITEMS : Int)) := by
    simp only [MAX_ITEMS]
    omega
  have he : strcmp V.master_password master_password = 0 := strcmp_eq_zero_of_c_str_eq hpw
  have hcall : ecall_remove_item env h master_password index =
      some (seal_and_save env (opened env h) W) := by
    simp only [ecall_remove_item, hg, if_false, load_and_unseal_of_stored hV, he, hW]
    simp
  refine ⟨W, hcall, hWsize, hWpw, ?_, ?_, ?_, ?_⟩
  · intro j hj
    rw [hWj j, if_neg (by omega)]
  · intro j hj1 hj2
    rw [hWj j, if_pos ⟨hj1, hj2⟩]
  · apply List.ext_getElem?
    intro j
    rw [List.getElem?_take, List.getElem?_eraseIdx, List.getElem?_take, List.getElem?_take,
      hWj j, hWsize]
    by_cases hj1 : j < V.size - 1
    · by_cases hj2 : j < index.toNat
      · rw [if_pos hj1, if_pos hj2, if_neg (by omega), if_pos (by omega)]
      · rw [if_pos hj1, if_neg hj2, if_pos (by omega), if_pos (by omega)]
    · by_cases hj2 : j < index.toNat
      · omega
      · rw [if_neg hj1, if_neg hj2, if_neg (by omega)]
  · intro d hseal hs hw
    rw [hcall, seal_and_save_success env (opened env h) W d hseal hs hw]

/-- C5 at `RemoveItem("longpass1", 0)` on the wallet that holds one item. -/
theorem remove_preserves_order_witness :
    stored_wallet (sample_env sample_wallet) sample_host = some sample_wallet ∧
    sample_wallet.items.length = MAX_ITEMS ∧ sample_wallet.size ≤ 100 ∧
    c_str longpass1 = c_str sample_wallet.master_password ∧
    (0 : Int) ≤ 0 ∧ (0 : Int) < (sample_wallet.size : Int) ∧
    ∃ W, ecall_remove_item (sample_env sample_wallet) sample_host longpass1 0 =
        some (seal_and_save (sample_env sample_wallet)
          (opened (sample_env sample_wallet) sample_host) W) ∧
      W.size = 0 :=
  ⟨rfl, by simp [sample_wallet, MAX_ITEMS], by decide, by decide, by decide, by decide,
    (remove_preserves_order (sample_env sample_wallet) sample_host sample_wallet longpass1 0
      rfl (by simp [sample_wallet, MAX_ITEMS]) (by decide) (by decide) (by decide)
      (by decide)).imp (fun _ hW => ⟨hW.1, hW.2.1⟩)⟩

/-! ## C6: the bounds of `ecall_remove_item` -/

/-- C6: with an index that is negative or at least 100, `ecall_remove_item` returns
`ERR_ITEM_DOES_NOT_EXIST` at once, in every state and for every password, and the
host is untouched: no load, no save.  With an index in `[0, 100)` that is at least
the size of the wallet `V` to which the blob loads and unseals, and the right
password, it returns `ERR_ITEM_DOES_NOT_EXIST` after the load and the unseal, and
no save runs. -/
theorem remove_out_of_range (env : Env) (h : Host) (master_password : List Nat) (index : Int) :
    ((index < 0 ∨ index ≥ 100) →
      ecall_remove_item env h master_password index =
        some { ret := Code.ERR_ITEM_DOES_NOT_EXIST, host := h }) ∧
    (∀ V, stored_wallet env h = some V → c_str master_password = c_str V.master_password →
      (index < 0 ∨ index ≥ (V.size : Int)) →
      ∃ o, ecall_remove_item env h master_password index = some o ∧
        o.ret = Code.ERR_ITEM_DOES_NOT_EXIST ∧ unsaved h o.host ∧
        (o.host = h ∨ o.host = opened env h)) := by
  have hfirst : (index < 0 ∨ index ≥ 100) →
      ecall_remove_item env h master_password index =
        some { ret := Code.ERR_ITEM_DOES_NOT_EXIST, host := h } := by
    intro hr
    have hg : index < 0 ∨ index ≥ (MAX_ITEMS : Int) := by
      simp only [MAX_ITEMS]
      omega
    simp only [ecall_remove_item, hg, if_true]
  refine ⟨hfirst, ?_⟩
  intro V hV hpw hr
  by_cases hout : index < 0 ∨ index ≥ 100
  · exact ⟨_, hfirst hout, rfl, unsaved_refl h, Or.inl rfl⟩
  · have hg : ¬ (index < 0 ∨ index ≥ (MAX_ITEMS : Int)) := by
      simp only [MAX_ITEMS]
      omega
    have he : strcmp V.master_password master_password = 0 := strcmp_eq_zero_of_c_str_eq hpw
    have hc : size_t_of_int index ≥ V.size := by
      unfold size_t_of_int SIZE_T_RANGE
      omega
    refine ⟨{ ret := Code.ERR_ITEM_DOES_NOT_EXIST, host := opened env h }, ?_, rfl,
      unsaved_opened env h, Or.inr rfl⟩
    simp only [ecall_remove_item, hg, if_false, load_and_unseal_of_stored hV, he,
      remove_item_update, hc]
    simp

/-- C6 at the index 1, which is the size of the wallet that holds one item. -/
theorem remove_out_of_range_witness :
    stored_wallet (sample_env sample_wallet) sample_host = some sample_wallet ∧
    c_str longpass1 = c_str sample_wallet.master_password ∧
    ((1 : Int) < 0 ∨ (1 : Int) ≥ (sample_wallet.size : Int)) ∧
    ∃ o, ecall_remove_item (sample_env sample_wallet) sample_host longpass1 1 = some o ∧
      o.ret = Code.ERR_ITEM_DOES_NOT_EXIST :=
  ⟨rfl, by decide, by decide,
    ((remove_out_of_range (sample_env sample_wallet) sample_host longpass1 1).2 sample_wallet
      rfl (by decide) (by decide)).imp (fun _ ho => ⟨ho.1, ho.2.1⟩)⟩

/-! ## C7: append -/

/-- Step 5 of `ecall_add_item` on a wallet of 100 slots with fewer than 100 items:
the item is written at the position `size` and the size grows by one. -/
theorem add_item_update_spec (V : Wallet) (item : Item)
    (hlen : V.items.length = MAX_ITEMS) (hsize : V.size < MAX_ITEMS) :
    add_item_update V item =
      Update.done { V with items := V.items.set V.size item, size := V.size + 1 } := by
  have hM : MAX_ITEMS = 100 := rfl
  have hg : ¬ (V.size ≥ MAX_ITEMS) := by omega
  have hmod : (V.size + 1) % SIZE_T_RANGE = V.size + 1 := by
    unfold SIZE_T_RANGE
    omega
  simp only [add_item_update, hg, if_false, items_set_natCast, hmod]
  rw [if_pos ⟨hsize, by omega⟩]

/-- C7: when the persisted blob loads and unseals to a wallet `V` with fewer than
100 items, the password is right and each field of the item has at most 99 bytes,
`ecall_add_item` goes on to seal and save a wallet `W` with `W.size = V.size + 1`,
the given item at the position `V.size`, and every other slot and the master
password as in `V`.  When the seal and the save succeed, the call returns
`RET_SUCCESS` and the file holds the blob of `W`. -/
theorem add_appends (env : Env) (h : Host) (V : Wallet) (master_password : List Nat)
    (item : Item) (item_size : Nat)
    (hV : stored_wallet env h = some V)
    (hlen : V.items.length = MAX_ITEMS) (hsize : V.size < 100)
    (hpw : c_str master_password = c_str V.master_password)
    (ht : strlen item.title ≤ 99) (hu : strlen item.username ≤ 99)
    (hp : strlen item.password ≤ 99) :
    ∃ W, ecall_add_item env h master_password item item_size =
        some (seal_and_save env (opened env h) W) ∧
      W.size = V.size + 1 ∧ W.items[V.size]? = some item ∧
      (∀ j, j ≠ V.size → W.items[j]? = V.items[j]?) ∧
      W.master_password = V.master_password ∧
      (∀ d, env.seal_wallet W (sealed_size env) = some d →
        env.ocall_status Ocall.save_wallet = SGX_SUCCESS → h.write_fails = false →
        ecall_add_item env h master_password item item_size =
          some { ret := Code.RET_SUCCESS, host := saved env (opened env h) W d }) := by
  have hM : MAX_ITEMS = 100 := rfl
  have he : strcmp V.master_password master_password = 0 := strcmp_eq_zero_of_c_str_eq hpw
  have hg : ¬ (strlen item.title + 1 > MAX_ITEMS_SIZE ∨ strlen item.username + 1 > MAX_ITEMS_SIZE ∨
      strlen item.password + 1 > MAX_ITEMS_SIZE) := by
    simp only [MAX_ITEMS_SIZE]
    omega
  have hcall : ecall_add_item env h master_password item item_size =
      some (seal_and_save env (opened env h)
        { V with items := V.items.set V.size item, size := V.size + 1 }) := by
    simp only [ecall_add_item, load_and_unseal_of_stored hV, he, hg, if_false,
      add_item_update_spec V item hlen (by omega)]
    simp
  refine ⟨{ V with items := V.items.set V.size item, size := V.size + 1 }, hcall, rfl, ?_, ?_,
    rfl, ?_⟩
  · show (V.items.set V.size item)[V.size]? = some item
    rw [List.getElem?_set, if_pos rfl, if_pos (by omega)]
  · intro j hj
    show (V.items.set V.size item)[j]? = V.items[j]?
    rw [List.getElem?_set_ne (fun e => hj e.symm)]
  · intro d hseal hs hw
    rw [hcall, seal_and_save_success env (opened env h) _ d hseal hs hw]

/-- C7 at `AddItem("longpass1", {"site", "bob", "p@ss"})` on the wallet that holds
one item. -/
theorem add_appends_witness :
    stored_wallet (sample_env sample_wallet) sample_host = some sample_wallet ∧
    sample_wallet.items.length = MAX_ITEMS ∧ sample_wallet.size < 100 ∧
    c_str longpass1 = c_str sample_wallet.master_password ∧
    strlen site_item.title ≤ 99 ∧ strlen site_item.username ≤ 99 ∧
    strlen site_item.password ≤ 99 ∧
    ∃ W, ecall_add_item (sample_env sample_wallet) sample_host longpass1 site_item 300 =
        some (seal_and_save (sample_env sample_wallet)
          (opened (sample_env sample_wallet) sample_host) W) ∧
      W.size = 2 :=
  ⟨rfl, by simp [sample_wallet, MAX_ITEMS], by decide, by decide, by decide, by decide,
    by decide,
    (add_appends (sample_env sample_wallet) sample_host sample_wallet longpass1 site_item 300
      rfl (by simp [sample_wallet, MAX_ITEMS]) (by decide) (by decide) (by decide) (by decide)
      (by decide)).imp (fun _ hW => ⟨hW.1, hW.2.1⟩)⟩

/-! ## C8: capacity -/

/-- The steps "Load wallet" and "Unseal wallet" give a wallet exactly when the
persisted blob loads and unseals to it. -/
theorem load_and_unseal_ok {env : Env} {h h1 : Host} {V : Wallet}
    (hl : load_and_unseal env h = Loaded.ok V h1) :
    stored_wallet env h = some V ∧ h1 = opened env h := by
  by_cases hs : env.ocall_status Ocall.load_wallet = SGX_SUCCESS
  · by_cases hf : h.file.isSome = true
    · cases hu : env.unseal_wallet (loaded_data env h) sizeof_wallet_t with
      | none =>
        simp only [load_and_unseal, load_stub_success h hs, hf, unseal_loaded, hu] at hl
        simp at hl
      | some W =>
        simp only [load_and_unseal, load_stub_success h hs, hf, unseal_loaded, hu] at hl
        simp at hl
        refine ⟨?_, ?_⟩
        · simp only [stored_wallet, hs, hf, hu, hl.1]
          simp
        · rw [← hl.2]
          rfl
    · simp only [load_and_unseal, load_stub_success h hs, hf] at hl
      simp at hl
  · simp only [load_and_unseal, load_stub_failure h hs] at hl
    simp [hs] at hl

/-- C8: when the persisted blob loads and unseals to a wallet of `size == 100`, the
password is right and each field of the item has at most 99 bytes, `ecall_add_item`
returns `ERR_WALLET_FULL` after the load and the unseal, and no save runs.
Conversely, whenever `ecall_add_item` returns `ERR_WALLET_FULL`, the blob has loaded
and unsealed to a wallet of `size >= 100`, and no save has run. -/
theorem add_full (env : Env) (h : Host) (master_password : List Nat) (item : Item)
    (item_size : Nat) :
    (∀ V, stored_wallet env h = some V → c_str master_password = c_str V.master_password →
      strlen item.title ≤ 99 → strlen item.username ≤ 99 → strlen item.password ≤ 99 →
      V.size = 100 →
      ecall_add_item env h master_password item item_size =
        some { ret := Code.ERR_WALLET_FULL, host := opened env h } ∧
      unsaved h (opened env h)) ∧
    (∀ o, ecall_add_item env h master_password item item_size = some o →
      o.ret = Code.ERR_WALLET_FULL →
      ∃ V, stored_wallet env h = some V ∧ V.size ≥ 100 ∧ unsaved h o.host) := by
  constructor
  · intro V hV hpw ht hu hp hsize
    have he : strcmp V.master_password master_password = 0 := strcmp_eq_zero_of_c_str_eq hpw
    have hg : ¬ (strlen item.title + 1 > MAX_ITEMS_SIZE ∨
        strlen item.username + 1 > MAX_ITEMS_SIZE ∨
        strlen item.password + 1 > MAX_ITEMS_SIZE) := by
      simp only [MAX_ITEMS_SIZE]
      omega
    have hfull : V.size ≥ MAX_ITEMS := by
      simp only [MAX_ITEMS]
      omega
    refine ⟨?_, unsaved_opened env h⟩
    simp only [ecall_add_item, load_and_unseal_of_stored hV, he, hg, if_false, add_item_update,
      hfull]
    simp
  · intro o ho hret
    rcases load_and_unseal_cases env h with ⟨h1, hl, _⟩ | ⟨h1, hl, _⟩ | ⟨V, h1, hl, hu1⟩
    · simp only [ecall_add_item, hl, Option.some.injEq] at ho
      rw [← ho] at hret
      simp at hret
    · simp only [ecall_add_item, hl, Option.some.injEq] at ho
      rw [← ho] at hret
      simp at hret
    · obtain ⟨hV, _⟩ := load_and_unseal_ok hl
      simp only [ecall_add_item, hl] at ho
      split at ho
      · simp only [Option.some.injEq] at ho
        rw [← ho] at hret
        simp at hret
      · split at ho
        · simp only [Option.some.injEq] at ho
          rw [← ho] at hret
          simp at hret
        · by_cases hfull : V.size ≥ MAX_ITEMS
          · simp only [add_item_update, hfull, if_true, Option.some.injEq] at ho
            refine ⟨V, hV, hfull, ?_⟩
            rw [← ho]
            exact hu1
          · simp only [add_item_update, hfull, if_false] at ho
            cases hset : items_set V.items (V.size : Int) item with
            | none => simp [hset] at ho
            | some items =>
              simp only [hset, Option.some.injEq] at ho
              rw [← ho] at hret
              rcases (seal_and_save_cases env h1
                { V with items := items, size := (V.size + 1) % SIZE_T_RANGE }).2 with
                hh | hh | ⟨hh, _⟩ <;> simp [hh] at hret

/-- C8 at a wallet with master password `"longpass1"` and `size == 100`. -/
theorem add_full_witness :
    stored_wallet (sample_env { sample_wallet with size := 100 }) sample_host =
      some { sample_wallet with size := 100 } ∧
    c_str longpass1 = c_str sample_wallet.master_password ∧
    strlen site_item.title ≤ 99 ∧ strlen site_item.username ≤ 99 ∧
    strlen site_item.password ≤ 99 ∧
    ecall_add_item (sample_env { sample_wallet with size := 100 }) sample_host longpass1
        site_item 300 =
      some { ret := Code.ERR_WALLET_FULL,
             host := opened (sample_env { sample_wallet with size := 100 }) sample_host } :=
  ⟨rfl, by decide, by decide, by decide, by decide,
    ((add_full (sample_env { sample_wallet with size := 100 }) sample_host longpass1 site_item
      300).1 { sample_wallet with size := 100 } rfl (by decide) (by decide) (by decide)
      (by decide) rfl).1⟩

/-! ## C9: add, then remove -/

/-- C9: on a wallet `V` of 100 slots with fewer than 100 items, step 5 of
`ecall_add_item` gives a wallet `W1`, and step 5 of `ecall_remove_item` on `W1` at
the index `V.size`, where the item was placed, gives a wallet `W2` with the size
and the master password of `V` and the items of `V` at all positions below
`V.size`, in the same order. -/
theorem add_then_remove (V : Wallet) (item : Item)
    (hlen : V.items.length = MAX_ITEMS) (hsize : V.size < 100) :
    ∃ W1 W2, add_item_update V item = Update.done W1 ∧
      remove_item_update W1 (V.size : Int) = Update.done W2 ∧
      W2.size = V.size ∧ W2.master_password = V.master_password ∧
      (∀ j, j < V.size → W2.items[j]? = V.items[j]?) ∧
      W2.items.take W2.size = V.items.take V.size := by
  have hM : MAX_ITEMS = 100 := rfl
  have hadd := add_item_update_spec V item hlen (by omega)
  obtain ⟨W2, hW2, hsz, hpw, _, hj⟩ :=
    remove_item_update_spec { V with items := V.items.set V.size item, size := V.size + 1 }
      (V.size : Int) (by simpa using hlen) (by simp only []; omega) (by omega)
      (by simp only []; omega)
  have hsz2 : W2.size = V.size := by simpa using hsz
  have hitems : ∀ j, j < V.size → W2.items[j]? = V.items[j]? := by
    intro j hjlt
    rw [hj j]
    simp only [Int.toNat_ofNat]
    rw [if_neg (by omega), List.getElem?_set_ne (by omega)]
  refine ⟨_, W2, hadd, hW2, hsz2, hpw, hitems, ?_⟩
  apply List.ext_getElem?
  intro j
  rw [List.getElem?_take, List.getElem?_take, hsz2]
  by_cases hjlt : j < V.size
  · rw [if_pos hjlt, if_pos hjlt, hitems j hjlt]
  · rw [if_neg hjlt, if_neg hjlt]

/-- C9 at the wallet that holds one item and the item `{"site", "bob", "p@ss"}`. -/
theorem add_then_remove_witness :
    sample_wallet.items.length = MAX_ITEMS ∧ sample_wallet.size < 100 ∧
    ∃ W1 W2, add_item_update sample_wallet site_item = Update.done W1 ∧
      remove_item_update W1 (sample_wallet.size : Int) = Update.done W2 ∧
      W2.size = sample_wallet.size :=
  ⟨by simp [sample_wallet, MAX_ITEMS], by decide,
    (add_then_remove sample_wallet site_item (by simp [sample_wallet, MAX_ITEMS])
      (by decide)).imp (fun _ hW1 => hW1.imp (fun _ hW2 => ⟨hW2.1, hW2.2.1, hW2.2.2.1⟩))⟩

/-! ## C10: no write on failure -/

theorem unsaved_is_wallet_stub (env : Env) (h : Host) :
    unsaved h (enclave_t_ocall_is_wallet env h).host := by
  unfold enclave_t_ocall_is_wallet
  by_cases hs : env.ocall_status Ocall.is_wallet = SGX_SUCCESS
  · rw [if_pos hs]
    cases hf : h.file with
    | none =>
      simp [unsaved, ocall_is_wallet, Host.record, hf, Host.saves, List.countP_append,
        Event.is_save]
    | some f =>
      simp [unsaved, ocall_is_wallet, Host.record, hf, Host.saves, List.countP_append,
        Event.is_save]
  · rw [if_neg hs]
    exact unsaved_refl h

/-- The steps "Seal wallet" and "Save wallet", run after steps that saved nothing:
at most one save in all, and none unless the code is `RET_SUCCESS` or
`ERR_CANNOT_SAVE_WALLET`. -/
theorem seal_and_save_after (env : Env) {h h1 : Host} (w : Wallet) (hu : unsaved h h1) :
    (seal_and_save env h1 w).host.saves ≤ h.saves + 1 ∧
    ((seal_and_save env h1 w).ret ≠ Code.RET_SUCCESS →
      (seal_and_save env h1 w).ret ≠ Code.ERR_CANNOT_SAVE_WALLET →
      unsaved h (seal_and_save env h1 w).host) := by
  obtain ⟨hle, hcases⟩ := seal_and_save_cases env h1 w
  refine ⟨by rw [← hu.2]; exact hle, ?_⟩
  intro hn1 hn2
  rcases hcases with hh | hh | ⟨_, hh⟩
  · exact absurd hh hn1
  · exact absurd hh hn2
  · exact unsaved_trans hu hh

/-- C10: in every state and for every input, each of the five commands runs the
host save at most once, and when it returns a code other than `RET_SUCCESS` and
`ERR_CANNOT_SAVE_WALLET` no save has run and the wallet file is the one before the
call; `ecall_show_wallet` never runs the save. -/
theorem no_write_on_failure (env : Env) (h : Host) :
    (∀ p, (ecall_create_wallet env h p).host.saves ≤ h.saves + 1 ∧
      ((ecall_create_wallet env h p).ret ≠ Code.RET_SUCCESS →
        (ecall_create_wallet env h p).ret ≠ Code.ERR_CANNOT_SAVE_WALLET →
        unsaved h (ecall_create_wallet env h p).host)) ∧
    (∀ p wallet wallet_size, unsaved h (ecall_show_wallet env h p wallet wallet_size).host) ∧
    (∀ old_password new_password,
      (ecall_change_master_password env h old_password new_password).host.saves ≤ h.saves + 1 ∧
      ((ecall_change_master_password env h old_password new_password).ret ≠ Code.RET_SUCCESS →
        (ecall_change_master_password env h old_password new_password).ret ≠
          Code.ERR_CANNOT_SAVE_WALLET →
        unsaved h (ecall_change_master_password env h old_password new_password).host)) ∧
    (∀ p item item_size o, ecall_add_item env h p item item_size = some o →
      o.host.saves ≤ h.saves + 1 ∧
      (o.ret ≠ Code.RET_SUCCESS → o.ret ≠ Code.ERR_CANNOT_SAVE_WALLET → unsaved h o.host)) ∧
    (∀ p index o, ecall_remove_item env h p index = some o →
      o.host.saves ≤ h.saves + 1 ∧
      (o.ret ≠ Code.RET_SUCCESS → o.ret ≠ Code.ERR_CANNOT_SAVE_WALLET → unsaved h o.host)) := by
  have early : ∀ {h1 : Host} (c : Code), unsaved h h1 →
      ({ ret := c, host := h1 } : Outcome).host.saves ≤ h.saves + 1 ∧
      (({ ret := c, host := h1 } : Outcome).ret ≠ Code.RET_SUCCESS →
        ({ ret := c, host := h1 } : Outcome).ret ≠ Code.ERR_CANNOT_SAVE_WALLET →
        unsaved h ({ ret := c, host := h1 } : Outcome).host) := by
    intro h1 c hu
    exact ⟨by show h1.saves ≤ h.saves + 1; rw [hu.2]; omega, fun _ _ => hu⟩
  refine ⟨?_, ?_, ?_, ?_, ?_⟩
  · intro p
    by_cases hg : strlen p < 8 ∨ strlen p + 1 > MAX_ITEMS_SIZE
    · simp only [ecall_create_wallet, hg, if_true]
      exact early _ (unsaved_refl h)
    · rw [ecall_create_wallet, if_neg hg]
      dsimp only
      by_cases he : (enclave_t_ocall_is_wallet env h).ret ≠ 0
      · rw [if_pos he]
        exact early _ (unsaved_is_wallet_stub env h)
      · rw [if_neg he]
        exact seal_and_save_after env _ (unsaved_is_wallet_stub env h)
  · intro p wallet wallet_size
    unfold ecall_show_wallet
    rcases show_load_and_unseal_cases env h with ⟨h1, hl, hu⟩ | ⟨h1, hl, hu⟩ | ⟨V, h1, hl, hu⟩
    · simp only [hl]
      exact hu
    · simp only [hl]
      exact hu
    · simp only [hl]
      split
      · exact hu
      · exact hu
  · intro old_password new_password
    unfold ecall_change_master_password
    split
    · exact early _ (unsaved_refl h)
    · rcases load_and_unseal_cases env h with ⟨h1, hl, hu⟩ | ⟨h1, hl, hu⟩ | ⟨V, h1, hl, hu⟩
      · simp only [hl]
        exact early _ hu
      · simp only [hl]
        exact early _ hu
      · simp only [hl]
        split
        · exact early _ hu
        · exact seal_and_save_after env _ hu
  · intro p item item_size o ho
    unfold ecall_add_item at ho
    rcases load_and_unseal_cases env h with ⟨h1, hl, hu⟩ | ⟨h1, hl, hu⟩ | ⟨V, h1, hl, hu⟩
    · simp only [hl, Option.some.injEq] at ho
      rw [← ho]
      exact early _ hu
    · simp only [hl, Option.some.injEq] at ho
      rw [← ho]
      exact early _ hu
    · simp only [hl] at ho
      split at ho
      · simp only [Option.some.injEq] at ho
        rw [← ho]
        exact early _ hu
      · split at ho
        · simp only [Option.some.injEq] at ho
          rw [← ho]
          exact early _ hu
        · cases hup : add_item_update V item with
          | done W =>
            simp only [hup, Option.some.injEq] at ho
            rw [← ho]
            exact seal_and_save_after env W hu
          | fail c =>
            simp only [hup, Option.some.injEq] at ho
            rw [← ho]
            exact early _ hu
          | undefined => simp [hup] at ho
  · intro p index o ho
    unfold ecall_remove_item at ho
    split at ho
    · simp only [Option.some.injEq] at ho
      rw [← ho]
      exact early _ (unsaved_refl h)
    · rcases load_and_unseal_cases env h with ⟨h1, hl, hu⟩ | ⟨h1, hl, hu⟩ | ⟨V, h1, hl, hu⟩
      · simp only [hl, Option.some.injEq] at ho
        rw [← ho]
        exact early _ hu
      · simp only [hl, Option.some.injEq] at ho
        rw [← ho]
        exact early _ hu
      · simp only [hl] at ho
        split at ho
        · simp only [Option.some.injEq] at ho
          rw [← ho]
          exact early _ hu
        · cases hup : remove_item_update V index with
          | done W =>
            simp only [hup, Option.some.injEq] at ho
            rw [← ho]
            exact seal_and_save_after env W hu
          | fail c =>
            simp only [hup, Option.some.injEq] at ho
            rw [← ho]
            exact early _ hu
          | undefined => simp [hup] at ho

/-- C10 at `RemoveItem("wrongpass", 0)` on the wallet that holds one item: the call
returns `ERR_WRONG_MASTER_PASSWORD` and leaves the file as it was. -/
theorem no_write_on_failure_witness :
    ecall_remove_item (sample_env sample_wallet) sample_host wrongpass 0 =
      some { ret := Code.ERR_WRONG_MASTER_PASSWORD,
             host := opened (sample_env sample_wallet) sample_host } ∧
    Code.ERR_WRONG_MASTER_PASSWORD ≠ Code.RET_SUCCESS ∧
    Code.ERR_WRONG_MASTER_PASSWORD ≠ Code.ERR_CANNOT_SAVE_WALLET ∧
    unsaved sample_host (opened (sample_env sample_wallet) sample_host) :=
  ⟨rfl, by decide, by decide,
    ((no_write_on_failure (sample_env sample_wallet) sample_host).2.2.2.2 wrongpass 0
      { ret := Code.ERR_WRONG_MASTER_PASSWORD,
        host := opened (sample_env sample_wallet) sample_host } rfl).2
      (by decide) (by decide)⟩

/-! ## Lemmas on `strncpy` -/

theorem c_str_append_zero (s r : List Nat) : c_str (c_str s ++ 0 :: r) = c_str s := by
  unfold c_str
  induction s with
  | nil => simp [List.takeWhile]
  | cons x xs ih =>
    by_cases hx : x = 0
    · simp [hx, List.takeWhile]
    · simpa [hx, List.takeWhile] using ih

/-- Copying a string with its terminator, as every `strncpy` of `enclave.cpp` does:
the destination then holds the string, a terminator, and its old bytes after
that. -/
theorem strncpy_string (destination source : List Nat) :
    strncpy destination source (strlen source + 1) =
      c_str source ++ 0 :: destination.drop (strlen source + 1) := by
  have hlen : strlen source = (c_str source).length := strlen_eq_length_c_str source
  unfold strncpy
  rw [hlen]
  show (c_str source ++ List.replicate ((c_str source).length + 1) 0).take
      ((c_str source).length + 1) ++ _ = _
  rw [List.take_append_eq_append_take, List.take_of_length_le (by omega)]
  simp [List.replicate_succ]

theorem c_str_strncpy (destination source : List Nat) :
    c_str (strncpy destination source (strlen source + 1)) = c_str source := by
  rw [strncpy_string, c_str_append_zero]

theorem strlen_strncpy (destination source : List Nat) :
    strlen (strncpy destination source (strlen source + 1)) = strlen source := by
  rw [strlen_eq_length_c_str, c_str_strncpy, ← strlen_eq_length_c_str]

/-! ## C11 and C12: `ecall_create_wallet` -/

theorem is_wallet_stub_success {env : Env} (h : Host)
    (hs : env.ocall_status Ocall.is_wallet = SGX_SUCCESS) :
    enclave_t_ocall_is_wallet env h =
      { status := SGX_SUCCESS
        ret := if h.file.isSome = true then 1 else 0
        sealed_data := []
        host := h.record Event.is_wallet } := by
  cases hfile : h.file with
  | none => simp [enclave_t_ocall_is_wallet, hs, ocall_is_wallet, Host.record, hfile]
  | some f => simp [enclave_t_ocall_is_wallet, hs, ocall_is_wallet, Host.record, hfile]

/-- C11: for a password of 8 to 99 bytes, when the host reports that there is no
wallet file, `ecall_create_wallet` goes on to seal and save a wallet `W` with
`size == 0` whose master password is the string `p`; the save is asked to write
`sizeof(sgx_sealed_data_t) + sizeof(wallet_t)` bytes.  When the seal and the save
succeed, the call returns `RET_SUCCESS` and the file holds the blob that
`seal_wallet` made of `W`. -/
theorem create_on_absent (env : Env) (h : Host) (p : List Nat)
    (h8 : 8 ≤ strlen p) (h99 : strlen p ≤ 99)
    (hs : env.ocall_status Ocall.is_wallet = SGX_SUCCESS) (hfile : h.file = none) :
    ∃ W, ecall_create_wallet env h p = seal_and_save env (h.record Event.is_wallet) W ∧
      W.size = 0 ∧ c_str W.master_password = c_str p ∧ strlen W.master_password = strlen p ∧
      sealed_size env = env.sizeof_sgx_sealed_data_t + sizeof_wallet_t ∧
      (∀ d, env.seal_wallet W (sealed_size env) = some d →
        env.ocall_status Ocall.save_wallet = SGX_SUCCESS → h.write_fails = false →
        ecall_create_wallet env h p =
          { ret := Code.RET_SUCCESS, host := saved env (h.record Event.is_wallet) W d } ∧
        (saved env (h.record Event.is_wallet) W d).file = some (d.take (sealed_size env)) ∧
        (saved env (h.record Event.is_wallet) W d).trace =
          h.trace ++ [Event.is_wallet, Event.seal W (sealed_size env),
            Event.save d (sealed_size env)]) := by
  have hg : ¬ (strlen p < 8 ∨ strlen p + 1 > MAX_ITEMS_SIZE) := by
    simp only [MAX_ITEMS_SIZE]
    omega
  have hcall : ecall_create_wallet env h p =
      seal_and_save env (h.record Event.is_wallet)
        { items := env.malloc_wallet.items, size := 0,
          master_password := strncpy env.malloc_wallet.master_password p (strlen p + 1) } := by
    rw [ecall_create_wallet, if_neg hg]
    dsimp only
    rw [is_wallet_stub_success h hs]
    simp [hfile]
  refine ⟨_, hcall, rfl, c_str_strncpy _ p, strlen_strncpy _ p, rfl, ?_⟩
  intro d hseal hsave hw
  refine ⟨?_, rfl, ?_⟩
  · rw [hcall, seal_and_save_success env _ _ d hseal hsave (by simpa [Host.record] using hw)]
  · simp [saved, Host.record]

/-- C11 at `Create("longpass1")` on a host without a wallet file. -/
theorem create_on_absent_witness :
    8 ≤ strlen longpass1 ∧ strlen longpass1 ≤ 99 ∧
    (sample_env sample_wallet).ocall_status Ocall.is_wallet = SGX_SUCCESS ∧
    empty_host.file = none ∧
    ∃ W, ecall_create_wallet (sample_env sample_wallet) empty_host longpass1 =
        seal_and_save (sample_env sample_wallet) (empty_host.record Event.is_wallet) W ∧
      W.size = 0 :=
  ⟨by decide, by decide, rfl, rfl,
    (create_on_absent (sample_env sample_wallet) empty_host longpass1 (by decide) (by decide)
      rfl rfl).imp (fun _ hW => ⟨hW.1, hW.2.1⟩)⟩

/-- C12: for a password of 8 to 99 bytes, when the host reports that the wallet
file exists, `ecall_create_wallet` returns `ERR_WALLET_ALREADY_EXISTS` right after
the existence test: the history gains that test and nothing else, so neither
`seal_wallet` nor the save runs, and the file is the one before the call. -/
theorem create_on_present (env : Env) (h : Host) (p f : List Nat)
    (h8 : 8 ≤ strlen p) (h99 : strlen p ≤ 99)
    (hs : env.ocall_status Ocall.is_wallet = SGX_SUCCESS) (hfile : h.file = some f) :
    ecall_create_wallet env h p =
      { ret := Code.ERR_WALLET_ALREADY_EXISTS, host := h.record Event.is_wallet } ∧
    (h.record Event.is_wallet).file = some f ∧
    (h.record Event.is_wallet).trace = h.trace ++ [Event.is_wallet] ∧
    unsaved h (h.record Event.is_wallet) := by
  have hg : ¬ (strlen p < 8 ∨ strlen p + 1 > MAX_ITEMS_SIZE) := by
    simp only [MAX_ITEMS_SIZE]
    omega
  refine ⟨?_, hfile, rfl, unsaved_record_is_wallet h⟩
  rw [ecall_create_wallet, if_neg hg]
  dsimp only
  rw [is_wallet_stub_success h hs]
  simp [hfile]

/-- C12 at `Create("longpass1")` on a host whose wallet file holds a blob. -/
theorem create_on_present_witness :
    8 ≤ strlen longpass1 ∧ strlen longpass1 ≤ 99 ∧
    (sample_env sample_wallet).ocall_status Ocall.is_wallet = SGX_SUCCESS ∧
    sample_host.file = some [1] ∧
    ecall_create_wallet (sample_env sample_wallet) sample_host longpass1 =
      { ret := Code.ERR_WALLET_ALREADY_EXISTS, host := sample_host.record Event.is_wallet } :=
  ⟨by decide, by decide, rfl, rfl,
    (create_on_present (sample_env sample_wallet) sample_host longpass1 [1] (by decide)
      (by decide) rfl rfl).1⟩

/-! ## C13: `ecall_change_master_password` -/

/-- C13: when the persisted blob loads and unseals to a wallet `V`, the old
password is right and the new one has 8 to 99 bytes,
`ecall_change_master_password` goes on to seal and save a wallet `W` whose master
password is the new string, with the size and all item slots of `V`.  When the seal
and the save succeed, the call returns `RET_SUCCESS` and the file holds the blob of
`W`. -/
theorem change_replaces_only_password (env : Env) (h : Host) (V : Wallet)
    (old_password new_password : List Nat)
    (hV : stored_wallet env h = some V)
    (hpw : c_str old_password = c_str V.master_password)
    (h8 : 8 ≤ strlen new_password) (h99 : strlen new_password ≤ 99) :
    ∃ W, ecall_change_master_password env h old_password new_password =
        seal_and_save env (opened env h) W ∧
      c_str W.master_password = c_str new_password ∧
      strlen W.master_password = strlen new_password ∧
      W.size = V.size ∧ W.items = V.items ∧
      (∀ d, env.seal_wallet W (sealed_size env) = some d →
        env.ocall_status Ocall.save_wallet = SGX_SUCCESS → h.write_fails = false →
        ecall_change_master_password env h old_password new_password =
          { ret := Code.RET_SUCCESS, host := saved env (opened env h) W d }) := by
  have hg : ¬ (strlen new_password < 8 ∨ strlen new_password + 1 > MAX_ITEMS_SIZE) := by
    simp only [MAX_ITEMS_SIZE]
    omega
  have he : strcmp V.master_password old_password = 0 := strcmp_eq_zero_of_c_str_eq hpw
  have hcall : ecall_change_master_password env h old_password new_password =
      seal_and_save env (opened env h)
        { V with
          master_password :=
            strncpy V.master_password new_password (strlen new_password + 1) } := by
    simp only [ecall_change_master_password, hg, if_false, load_and_unseal_of_stored hV, he]
    simp
  refine ⟨_, hcall, c_str_strncpy _ new_password, strlen_strncpy _ new_password, rfl, rfl, ?_⟩
  intro d hseal hsave hw
  rw [hcall, seal_and_save_success env (opened env h) _ d hseal hsave hw]

/-- C13 at `ChangePassword("longpass1", "wrongpass")` on the wallet that holds one
item. -/
theorem change_replaces_only_password_witness :
    stored_wallet (sample_env sample_wallet) sample_host = some sample_wallet ∧
    c_str longpass1 = c_str sample_wallet.master_password ∧
    8 ≤ strlen wrongpass ∧ strlen wrongpass ≤ 99 ∧
    ∃ W, ecall_change_master_password (sample_env sample_wallet) sample_host longpass1
          wrongpass =
        seal_and_save (sample_env sample_wallet)
          (opened (sample_env sample_wallet) sample_host) W ∧
      c_str W.master_password = c_str wrongpass :=
  ⟨rfl, by decide, by decide, by decide,
    (change_replaces_only_password (sample_env sample_wallet) sample_host sample_wallet
      longpass1 wrongpass rfl (by decide) (by decide) (by decide)).imp
      (fun _ hW => ⟨hW.1, hW.2.1⟩)⟩

/-! ## C15: `ecall_show_wallet` -/

/-- C15: when the persisted blob loads and unseals to a wallet `V`,
`ecall_show_wallet` returns `RET_SUCCESS` exactly when the supplied password is the
string held by `V.master_password`; then the wallet of the caller is `V`, in every
field.  Otherwise it returns `ERR_WRONG_MASTER_PASSWORD` and the wallet of the
caller is as before the call. -/
theorem show_success (env : Env) (h : Host) (V : Wallet) (master_password : List Nat)
    (wallet : Wallet) (wallet_size : Nat)
    (hV : stored_wallet env h = some V) :
    ((ecall_show_wallet env h master_password wallet wallet_size).ret = Code.RET_SUCCESS ↔
      c_str master_password = c_str V.master_password) ∧
    (c_str master_password = c_str V.master_password →
      ecall_show_wallet env h master_password wallet wallet_size =
        { ret := Code.RET_SUCCESS, wallet := V, host := opened env h }) ∧
    (c_str master_password ≠ c_str V.master_password →
      ecall_show_wallet env h master_password wallet wallet_size =
        { ret := Code.ERR_WRONG_MASTER_PASSWORD, wallet := wallet, host := opened env h }) := by
  have hyes : c_str master_password = c_str V.master_password →
      ecall_show_wallet env h master_password wallet wallet_size =
        { ret := Code.RET_SUCCESS, wallet := V, host := opened env h } := by
    intro hpw
    have he : strcmp V.master_password master_password = 0 := strcmp_eq_zero_of_c_str_eq hpw
    simp [ecall_show_wallet, show_load_and_unseal_of_stored hV, he]
  have hno : c_str master_password ≠ c_str V.master_password →
      ecall_show_wallet env h master_password wallet wallet_size =
        { ret := Code.ERR_WRONG_MASTER_PASSWORD, wallet := wallet, host := opened env h } := by
    intro hpw
    have hne : strcmp V.master_password master_password ≠ 0 := strcmp_ne_zero_of_c_str_ne hpw
    simp [ecall_show_wallet, show_load_and_unseal_of_stored hV, hne]
  refine ⟨?_, hyes, hno⟩
  by_cases hpw : c_str master_password = c_str V.master_password
  · simp [hyes hpw, hpw]
  · simp [hno hpw, hpw]

/-- C15 at `Show("longpass1")` on the wallet that holds one item. -/
theorem show_success_witness :
    stored_wallet (sample_env sample_wallet) sample_host = some sample_wallet ∧
    c_str longpass1 = c_str sample_wallet.master_password ∧
    ecall_show_wallet (sample_env sample_wallet) sample_host longpass1
        (sample_env sample_wallet).malloc_wallet 30112 =
      { ret := Code.RET_SUCCESS, wallet := sample_wallet,
        host := opened (sample_env sample_wallet) sample_host } :=
  ⟨rfl, by decide,
    (show_success (sample_env sample_wallet) sample_host sample_wallet longpass1
      (sample_env sample_wallet).malloc_wallet 30112 rfl).2.1 (by decide)⟩

/-! ## C18: index safety -/

/-- Step 5 of `ecall_remove_item`, entered with an `int` index that is not
negative, stays inside `wallet->items` on a wallet of at most 100 items. -/
theorem remove_item_update_defined (V : Wallet) (index : Int)
    (hlen : V.items.length = MAX_ITEMS) (hsize : V.size ≤ MAX_ITEMS)
    (h0 : 0 ≤ index) (h31 : index < 2 ^ 31) :
    remove_item_update V index ≠ Update.undefined := by
  by_cases hc : size_t_of_int index ≥ V.size
  · simp [remove_item_update, hc]
  · have hi : index < (V.size : Int) := by
      have hM : MAX_ITEMS = 100 := rfl
      unfold size_t_of_int SIZE_T_RANGE at hc
      omega
    obtain ⟨W, hW, _⟩ := remove_item_update_spec V index hlen hsize h0 hi
    rw [hW]
    simp

/-- C18: on an unsealed wallet `V` of 100 slots with `size <= 100`, (1) step 5 of
`ecall_add_item` and (2) step 5 of `ecall_remove_item`, entered with an index that
is a 32-bit `int` and not negative, never read or write outside `wallet->items`;
(3) whenever the
test `index >= wallet_size` lets the call through to the loop, `wallet_size` is at
least 1, so `wallet_size - 1` does not wrap, and the conversion of the index to
`size_t` keeps its value; with `size == 0` the loop is not reached; (4) for every
index and password both ECALLs return, and `ecall_remove_item` with a negative
index returns before the load, so before the comparison with the size. -/
theorem index_safety (V : Wallet) (hlen : V.items.length = MAX_ITEMS) (hsize : V.size ≤ 100) :
    (∀ item, add_item_update V item ≠ Update.undefined) ∧
    (∀ index : Int, 0 ≤ index → index < 2 ^ 31 →
      remove_item_update V index ≠ Update.undefined) ∧
    (∀ index : Int, 0 ≤ index → index < 2 ^ 31 → ¬ (size_t_of_int index ≥ V.size) →
      1 ≤ V.size ∧ (V.size + SIZE_T_RANGE - 1) % SIZE_T_RANGE = V.size - 1 ∧
      size_t_of_int index = index.toNat ∧ index.toNat < V.size) ∧
    (V.size = 0 → ∀ index : Int, 0 ≤ index →
      remove_item_update V index = Update.fail Code.ERR_ITEM_DOES_NOT_EXIST) ∧
    (∀ env h master_password, stored_wallet env h = some V →
      (∀ item item_size, ∃ o, ecall_add_item env h master_password item item_size = some o) ∧
      (∀ index, ∃ o, ecall_remove_item env h master_password index = some o) ∧
      (∀ index : Int, index < 0 →
        ecall_remove_item env h master_password index =
          some { ret := Code.ERR_ITEM_DOES_NOT_EXIST, host := h })) := by
  have hM : MAX_ITEMS = 100 := rfl
  have hadd : ∀ item, add_item_update V item ≠ Update.undefined := by
    intro item
    by_cases hfull : V.size ≥ MAX_ITEMS
    · simp [add_item_update, hfull]
    · rw [add_item_update_spec V item hlen (by omega)]
      simp
  have hrem : ∀ index : Int, 0 ≤ index → index < 2 ^ 31 →
      remove_item_update V index ≠ Update.undefined :=
    fun index h0 h31 => remove_item_update_defined V index hlen (by omega) h0 h31
  refine ⟨hadd, hrem, ?_, ?_, ?_⟩
  · intro index h0 h31 hc
    unfold size_t_of_int SIZE_T_RANGE at hc ⊢
    omega
  · intro h0s index h0
    have hc : size_t_of_int index ≥ V.size := by omega
    simp [remove_item_update, hc]
  · intro env h master_password hV
    refine ⟨?_, ?_, ?_⟩
    · intro item item_size
      simp only [ecall_add_item, load_and_unseal_of_stored hV]
      split
      · exact ⟨_, rfl⟩
      · split
        · exact ⟨_, rfl⟩
        · cases hup : add_item_update V item with
          | done W => exact ⟨_, rfl⟩
          | fail c => exact ⟨_, rfl⟩
          | undefined => exact absurd hup (hadd item)
    · intro index
      unfold ecall_remove_item
      split
      · exact ⟨_, rfl⟩
      · rename_i hg
        simp only [load_and_unseal_of_stored hV]
        split
        · exact ⟨_, rfl⟩
        · cases hup : remove_item_update V index with
          | done W => exact ⟨_, rfl⟩
          | fail c => exact ⟨_, rfl⟩
          | undefined =>
            have hM2 : (MAX_ITEMS : Int) = 100 := rfl
            exact absurd hup (hrem index (by omega) (by omega))
    · intro index hneg
      have hg : index < 0 ∨ index ≥ (MAX_ITEMS : Int) := Or.inl hneg
      simp only [ecall_remove_item, hg, if_true]

/-- C18 at the wallet that holds one item. -/
theorem index_safety_witness :
    sample_wallet.items.length = MAX_ITEMS ∧ sample_wallet.size ≤ 100 ∧
    ∀ index : Int, 0 ≤ index → index < 2 ^ 31 →
      remove_item_update sample_wallet index ≠ Update.undefined :=
  ⟨by simp [sample_wallet, MAX_ITEMS], by decide,
    (index_safety sample_wallet (by simp [sample_wallet, MAX_ITEMS]) (by decide)).2.1⟩

/-! ## C19: removed data is not erased -/

/-- C19: in a successful removal from a wallet `V` of 100 slots with
`1 <= size <= 100`, the wallet `W` that is sealed and saved has the slot
`V.size - 1` and all slots from `V.size` on as in `V`; when the last live item is
removed (`index == V.size - 1`) all 100 slots of `W` are those of `V`.  So the
removed last item is still in the sealed wallet, and `ecall_show_wallet`, which
copies the whole unsealed wallet to the caller, hands it out. -/
theorem remove_leaves_stale_slots (env : Env) (h : Host) (V : Wallet)
    (master_password : List Nat) (index : Int)
    (hV : stored_wallet env h = some V)
    (hlen : V.items.length = MAX_ITEMS) (hsize : V.size ≤ 100)
    (hpw : c_str master_password = c_str V.master_password)
    (h0 : 0 ≤ index) (hi : index < (V.size : Int)) :
    ∃ W, ecall_remove_item env h master_password index =
        some (seal_and_save env (opened env h) W) ∧
      W.size = V.size - 1 ∧
      (∀ j, V.size - 1 ≤ j → W.items[j]? = V.items[j]?) ∧
      (index = (V.size : Int) - 1 → W.items = V.items) ∧
      (∀ h2 wallet wallet_size, stored_wallet env h2 = some W →
        (ecall_show_wallet env h2 master_password wallet wallet_size).ret = Code.RET_SUCCESS ∧
        (ecall_show_wallet env h2 master_password wallet wallet_size).wallet.items[V.size - 1]? =
          V.items[V.size - 1]?) := by
  obtain ⟨W, hW, hWsize, hWpw, hWlen, hWj⟩ := remove_item_update_spec V index hlen hsize h0 hi
  have hg : ¬ (index < 0 ∨ index ≥ (MAX_ITEMS : Int)) := by
    simp only [MAX_ITEMS]
    omega
  have he : strcmp V.master_password master_password = 0 := strcmp_eq_zero_of_c_str_eq hpw
  have hcall : ecall_remove_item env h master_password index =
      some (seal_and_save env (opened env h) W) := by
    simp only [ecall_remove_item, hg, if_false, load_and_unseal_of_stored hV, he, hW]
    simp
  have hstale : ∀ j, V.size - 1 ≤ j → W.items[j]? = V.items[j]? := by
    intro j hj
    rw [hWj j, if_neg (by omega)]
  refine ⟨W, hcall, hWsize, hstale, ?_, ?_⟩
  · intro hlast
    apply List.ext_getElem?
    intro j
    rw [hWj j, if_neg (by omega)]
  · intro h2 wallet wallet_size hW2
    have he2 : strcmp W.master_password master_password = 0 :=
      strcmp_eq_zero_of_c_str_eq (by rw [hWpw]; exact hpw)
    have hshow : ecall_show_wallet env h2 master_password wallet wallet_size =
        { ret := Code.RET_SUCCESS, wallet := W, host := opened env h2 } := by
      simp [ecall_show_wallet, show_load_and_unseal_of_stored hW2, he2]
    rw [hshow]
    exact ⟨rfl, hstale _ (le_refl _)⟩

/-- C19 at `RemoveItem("longpass1", 0)` on the wallet that holds one item: all
slots stay, the removed item included. -/
theorem remove_leaves_stale_slots_witness :
    stored_wallet (sample_env sample_wallet) sample_host = some sample_wallet ∧
    sample_wallet.items.length = MAX_ITEMS ∧ sample_wallet.size ≤ 100 ∧
    c_str longpass1 = c_str sample_wallet.master_password ∧
    (0 : Int) ≤ 0 ∧ (0 : Int) < (sample_wallet.size : Int) ∧
    ∃ W, ecall_remove_item (sample_env sample_wallet) sample_host longpass1 0 =
        some (seal_and_save (sample_env sample_wallet)
          (opened (sample_env sample_wallet) sample_host) W) ∧
      W.size = 0 ∧ W.items = sample_wallet.items :=
  ⟨rfl, by simp [sample_wallet, MAX_ITEMS], by decide, by decide, by decide, by decide,
    (remove_leaves_stale_slots (sample_env sample_wallet) sample_host sample_wallet longpass1 0
      rfl (by simp [sample_wallet, MAX_ITEMS]) (by decide) (by decide) (by decide)
      (by decide)).imp (fun _ hW => ⟨hW.1, hW.2.1, hW.2.2.2.1 rfl⟩)⟩

/-! ## C14: the invariants of the wallet -/

theorem live_items_valid_iff (items : List Item) (n : Nat) :
    (∀ it ∈ items.take n, it.valid) ↔ ∀ j, j < n → ∀ it, items[j]? = some it → it.valid := by
  constructor
  · intro hall j hj it hit
    apply hall
    rw [List.mem_iff_getElem?]
    exact ⟨j, by rw [List.getElem?_take, if_pos hj, hit]⟩
  · intro hidx it hmem
    rw [List.mem_iff_getElem?] at hmem
    obtain ⟨j, hj⟩ := hmem
    rw [List.getElem?_take] at hj
    by_cases hlt : j < n
    · rw [if_pos hlt] at hj
      exact hidx j hlt it hj
    · rw [if_neg hlt] at hj
      exact absurd hj (by simp)

/-- A call of the steps "Seal wallet" and "Save wallet" that returns `RET_SUCCESS`
has sealed the wallet to a blob and saved it. -/
theorem seal_and_save_ret_success (env : Env) (h : Host) (w : Wallet)
    (hret : (seal_and_save env h w).ret = Code.RET_SUCCESS) :
    ∃ d, env.seal_wallet w (sealed_size env) = some d ∧
      (seal_and_save env h w).host = saved env h w d := by
  unfold seal_and_save at hret ⊢
  cases hseal : env.seal_wallet w (sealed_size env) with
  | none => simp [hseal] at hret
  | some d =>
    refine ⟨d, rfl, ?_⟩
    by_cases hs : env.ocall_status Ocall.save_wallet = SGX_SUCCESS
    · by_cases hw : h.write_fails = true
      · simp [hseal, enclave_t_ocall_save_wallet, hs, ocall_save_wallet, Host.record, hw] at hret
      · simp [enclave_t_ocall_save_wallet, hs, ocall_save_wallet, Host.record, hw, saved]
    · simp [hseal, enclave_t_ocall_save_wallet, hs] at hret

/-- C14: every wallet that a successful command seals and saves satisfies the three
invariants.  For `ecall_create_wallet` this holds in every state; for
`ecall_change_master_password`, `ecall_add_item` and `ecall_remove_item` it holds
when the wallet `V` to which the persisted blob unseals has 100 slots and
satisfies them. -/
theorem invariants_preserved (env : Env) (h : Host) :
    (∀ p, (ecall_create_wallet env h p).ret = Code.RET_SUCCESS →
      ∃ W d, W.valid ∧ env.seal_wallet W (sealed_size env) = some d ∧
        (ecall_create_wallet env h p).host =
          saved env (enclave_t_ocall_is_wallet env h).host W d) ∧
    (∀ V, stored_wallet env h = some V → V.items.length = MAX_ITEMS → V.valid →
      (∀ old_password new_password,
        (ecall_change_master_password env h old_password new_password).ret =
          Code.RET_SUCCESS →
        ∃ W d, W.valid ∧ env.seal_wallet W (sealed_size env) = some d ∧
          (ecall_change_master_password env h old_password new_password).host =
            saved env (opened env h) W d) ∧
      (∀ p item item_size o, ecall_add_item env h p item item_size = some o →
        o.ret = Code.RET_SUCCESS →
        ∃ W d, W.valid ∧ env.seal_wallet W (sealed_size env) = some d ∧
          o.host = saved env (opened env h) W d) ∧
      (∀ p index o, ecall_remove_item env h p index = some o →
        o.ret = Code.RET_SUCCESS →
        ∃ W d, W.valid ∧ env.seal_wallet W (sealed_size env) = some d ∧
          o.host = saved env (opened env h) W d)) := by
  have hM : MAX_ITEMS = 100 := rfl
  have hS : MAX_ITEMS_SIZE = 100 := rfl
  constructor
  · intro p hret
    by_cases hg : strlen p < 8 ∨ strlen p + 1 > MAX_ITEMS_SIZE
    · simp [ecall_create_wallet, hg] at hret
    · rw [ecall_create_wallet, if_neg hg] at hret ⊢
      dsimp only at hret ⊢
      by_cases he : (enclave_t_ocall_is_wallet env h).ret ≠ 0
      · rw [if_pos he] at hret
        simp at hret
      · rw [if_neg he] at hret ⊢
        obtain ⟨d, hseal, hhost⟩ := seal_and_save_ret_success env _ _ hret
        refine ⟨_, d, ⟨?_, ?_, ?_, ?_⟩, hseal, hhost⟩
        · show 0 ≤ MAX_ITEMS
          omega
        · intro it hit
          simp at hit
        · show 8 ≤ strlen (strncpy env.malloc_wallet.master_password p (strlen p + 1))
          rw [strlen_strncpy]
          omega
        · show strlen (strncpy env.malloc_wallet.master_password p (strlen p + 1)) <
            MAX_ITEMS_SIZE
          rw [strlen_strncpy]
          omega
  · intro V hV hlen hvalid
    obtain ⟨hvsize, hvitems, hv8, hv99⟩ := hvalid
    rw [live_items_valid_iff] at hvitems
    refine ⟨?_, ?_, ?_⟩
    · intro old_password new_password hret
      by_cases hg : strlen new_password < 8 ∨ strlen new_password + 1 > MAX_ITEMS_SIZE
      · simp [ecall_change_master_password, hg] at hret
      · simp only [ecall_change_master_password, hg, if_false,
          load_and_unseal_of_stored hV] at hret ⊢
        by_cases hc : strcmp V.master_password old_password ≠ 0
        · rw [if_pos hc] at hret
          simp at hret
        · rw [if_neg hc] at hret ⊢
          obtain ⟨d, hseal, hhost⟩ := seal_and_save_ret_success env _ _ hret
          refine ⟨{ V with
              master_password :=
                strncpy V.master_password new_password (strlen new_password + 1) }, d,
            ⟨hvsize, ?_, ?_, ?_⟩, hseal, hhost⟩
          · rw [live_items_valid_iff]
            exact hvitems
          · show 8 ≤ strlen (strncpy V.master_password new_password (strlen new_password + 1))
            rw [strlen_strncpy]
            omega
          · show strlen (strncpy V.master_password new_password (strlen new_password + 1)) <
              MAX_ITEMS_SIZE
            rw [strlen_strncpy]
            omega
    · intro p item item_size o ho hret
      simp only [ecall_add_item, load_and_unseal_of_stored hV] at ho
      by_cases hc : strcmp V.master_password p ≠ 0
      · rw [if_pos hc, Option.some.injEq] at ho
        rw [← ho] at hret
        simp at hret
      · rw [if_neg hc] at ho
        by_cases hl : strlen item.title + 1 > MAX_ITEMS_SIZE ∨
            strlen item.username + 1 > MAX_ITEMS_SIZE ∨
            strlen item.password + 1 > MAX_ITEMS_SIZE
        · rw [if_pos hl, Option.some.injEq] at ho
          rw [← ho] at hret
          simp at hret
        · rw [if_neg hl] at ho
          by_cases hfull : V.size ≥ MAX_ITEMS
          · simp only [add_item_update, hfull, if_true, Option.some.injEq] at ho
            rw [← ho] at hret
            simp at hret
          · rw [add_item_update_spec V item hlen (by omega)] at ho
            simp only [Option.some.injEq] at ho
            rw [← ho] at hret ⊢
            obtain ⟨d, hseal, hhost⟩ := seal_and_save_ret_success env _ _ hret
            refine ⟨{ V with items := V.items.set V.size item, size := V.size + 1 }, d,
              ⟨?_, ?_, hv8, hv99⟩, hseal, hhost⟩
            · show V.size + 1 ≤ MAX_ITEMS
              omega
            · rw [live_items_valid_iff]
              intro j hj it hit
              have hj2 : j < V.size + 1 := hj
              have hit2 : (V.items.set V.size item)[j]? = some it := hit
              by_cases hjs : j = V.size
              · rw [hjs, List.getElem?_set, if_pos rfl, if_pos (by omega)] at hit2
                simp only [Option.some.injEq] at hit2
                rw [← hit2]
                exact ⟨by omega, by omega, by omega⟩
              · rw [List.getElem?_set_ne (fun e => hjs e.symm)] at hit2
                exact hvitems j (by omega) it hit2
    · intro p index o ho hret
      by_cases hg : index < 0 ∨ index ≥ (MAX_ITEMS : Int)
      · simp only [ecall_remove_item, hg, if_true, Option.some.injEq] at ho
        rw [← ho] at hret
        simp at hret
      · simp only [ecall_remove_item, hg, if_false, load_and_unseal_of_stored hV] at ho
        by_cases hc : strcmp V.master_password p ≠ 0
        · rw [if_pos hc, Option.some.injEq] at ho
          rw [← ho] at hret
          simp at hret
        · rw [if_neg hc] at ho
          by_cases hout : size_t_of_int index ≥ V.size
          · simp only [remove_item_update, hout, if_true, Option.some.injEq] at ho
            rw [← ho] at hret
            simp at hret
          · have hM2 : (MAX_ITEMS : Int) = 100 := rfl
            have h0 : 0 ≤ index := by omega
            have hi : index < (V.size : Int) := by
              unfold size_t_of_int SIZE_T_RANGE at hout
              omega
            obtain ⟨W, hW, hWsize, hWpw, _, hWj⟩ :=
              remove_item_update_spec V index hlen hvsize h0 hi
            rw [hW] at ho
            simp only [Option.some.injEq] at ho
            rw [← ho] at hret ⊢
            obtain ⟨d, hseal, hhost⟩ := seal_and_save_ret_success env _ _ hret
            refine ⟨W, d, ⟨by omega, ?_, by rw [hWpw]; exact hv8, by rw [hWpw]; exact hv99⟩,
              hseal, hhost⟩
            rw [live_items_valid_iff]
            intro j hj it hit
            rw [hWj j] at hit
            by_cases hr : index.toNat ≤ j ∧ j < V.size - 1
            · rw [if_pos hr] at hit
              exact hvitems (j + 1) (by omega) it hit
            · rw [if_neg hr] at hit
              exact hvitems j (by omega) it hit

/-- C14 at `Create("longpass1")` on a host without a wallet file. -/
theorem invariants_preserved_witness :
    (ecall_create_wallet (sample_env sample_wallet) empty_host longpass1).ret =
      Code.RET_SUCCESS ∧
    ∃ W d, W.valid ∧ (sample_env sample_wallet).seal_wallet W
        (sealed_size (sample_env sample_wallet)) = some d ∧
      (ecall_create_wallet (sample_env sample_wallet) empty_host longpass1).host =
        saved (sample_env sample_wallet)
          (enclave_t_ocall_is_wallet (sample_env sample_wallet) empty_host).host W d :=
  ⟨rfl, (invariants_preserved (sample_env sample_wallet) empty_host).1 longpass1 rfl⟩

/-! ## Lemmas on the memory image -/

theorem of_le_bytes_le_bytes (n v : Nat) : of_le_bytes (le_bytes n v) = v % 256 ^ n := by
  induction n generalizing v with
  | zero => simp [le_bytes, of_le_bytes, Nat.mod_one]
  | succ k ih =>
    simp only [le_bytes, of_le_bytes, ih]
    rw [Nat.pow_succ, Nat.mul_comm (256 ^ k) 256, Nat.mod_mul]

theorem length_le_bytes (n v : Nat) : (le_bytes n v).length = n := by
  induction n generalizing v with
  | zero => rfl
  | succ k ih => simp [le_bytes, ih]

theorem le_bytes_lt (n v : Nat) : ∀ b ∈ le_bytes n v, b < 256 := by
  induction n generalizing v with
  | zero => simp [le_bytes]
  | succ k ih =>
    intro b hb
    simp only [le_bytes, List.mem_cons] at hb
    rcases hb with hb | hb
    · rw [hb]
      exact Nat.mod_lt _ (by decide)
    · exact ih _ b hb

theorem length_item_bytes {it : Item} (hit : it.layout) :
    (item_bytes it).length = 3 * MAX_ITEMS_SIZE := by
  obtain ⟨⟨h1, _⟩, ⟨h2, _⟩, ⟨h3, _⟩⟩ := hit
  simp only [item_bytes, List.length_append, h1, h2, h3]
  omega

theorem item_of_bytes_item_bytes {it : Item} (hit : it.layout) (rest : List Nat) :
    item_of_bytes (item_bytes it ++ rest) = it := by
  obtain ⟨⟨h1, _⟩, ⟨h2, _⟩, ⟨h3, _⟩⟩ := hit
  cases it with
  | mk title username password =>
    simp only at h1 h2 h3
    simp only [item_of_bytes, item_bytes, List.append_assoc]
    have e1 : (title ++ (username ++ (password ++ rest))).take MAX_ITEMS_SIZE = title := by
      rw [← h1]
      exact List.take_left' rfl
    have e2 : (title ++ (username ++ (password ++ rest))).drop MAX_ITEMS_SIZE =
        username ++ (password ++ rest) := by
      rw [← h1]
      exact List.drop_left' rfl
    have e3 : (username ++ (password ++ rest)).take MAX_ITEMS_SIZE = username := by
      rw [← h2]
      exact List.take_left' rfl
    have e4 : (title ++ (username ++ (password ++ rest))).drop (2 * MAX_ITEMS_SIZE) =
        password ++ rest := by
      have hlen : 2 * MAX_ITEMS_SIZE = (title ++ username).length := by
        rw [List.length_append, h1, h2]
        omega
      rw [hlen, ← List.append_assoc]
      exact List.drop_left' rfl
    have e5 : (password ++ rest).take MAX_ITEMS_SIZE = password := by
      rw [← h3]
      exact List.take_left' rfl
    rw [e1, e2, e3, e4, e5]

theorem items_of_bytes_items_bytes (items : List Item) (hall : ∀ it ∈ items, it.layout)
    (rest : List Nat) :
    items_of_bytes items.length (items_bytes items ++ rest) = items := by
  induction items with
  | nil => rfl
  | cons it tail ih =>
    have hit : it.layout := hall it (List.mem_cons_self _ _)
    have htail : ∀ x ∈ tail, x.layout := fun x hx => hall x (List.mem_cons_of_mem _ hx)
    simp only [items_bytes, List.length_cons, items_of_bytes, List.append_assoc]
    rw [item_of_bytes_item_bytes hit]
    have hdrop : (item_bytes it ++ (items_bytes tail ++ rest)).drop (3 * MAX_ITEMS_SIZE) =
        items_bytes tail ++ rest := by
      rw [← length_item_bytes hit]
      exact List.drop_left' rfl
    rw [hdrop, ih htail]

theorem length_items_bytes (items : List Item) (hall : ∀ it ∈ items, it.layout) :
    (items_bytes items).length = items.length * (3 * MAX_ITEMS_SIZE) := by
  induction items with
  | nil => rfl
  | cons it tail ih =>
    have hit : it.layout := hall it (List.mem_cons_self _ _)
    have htail : ∀ x ∈ tail, x.layout := fun x hx => hall x (List.mem_cons_of_mem _ hx)
    simp only [items_bytes, List.length_append, List.length_cons, length_item_bytes hit,
      ih htail]
    rw [Nat.add_mul]
    omega

theorem items_bytes_lt (items : List Item) (hall : ∀ it ∈ items, it.layout) :
    ∀ b ∈ items_bytes items, b < 256 := by
  induction items with
  | nil => simp [items_bytes]
  | cons it tail ih =>
    have hit : it.layout := hall it (List.mem_cons_self _ _)
    have htail : ∀ x ∈ tail, x.layout := fun x hx => hall x (List.mem_cons_of_mem _ hx)
    obtain ⟨⟨_, h1⟩, ⟨_, h2⟩, ⟨_, h3⟩⟩ := hit
    intro b hb
    simp only [items_bytes, item_bytes, List.mem_append] at hb
    rcases hb with ((hb | hb) | hb) | hb
    · exact h1 b hb
    · exact h2 b hb
    · exact h3 b hb
    · exact ih htail b hb

/-- The memory image of a wallet has `sizeof(wallet_t)` bytes. -/
theorem length_wallet_bytes {w : Wallet} (hw : w.layout) :
    (wallet_bytes w).length = sizeof_wallet_t := by
  obtain ⟨hlen, hall, _, hmp, _⟩ := hw
  simp only [wallet_bytes, List.length_append, length_items_bytes w.items hall, hlen,
    length_le_bytes, hmp, List.length_replicate, MAX_ITEMS, MAX_ITEMS_SIZE, sizeof_wallet_t]

theorem wallet_bytes_lt {w : Wallet} (hw : w.layout) : ∀ b ∈ wallet_bytes w, b < 256 := by
  obtain ⟨_, hall, _, _, hmp⟩ := hw
  intro b hb
  simp only [wallet_bytes, List.mem_append, List.mem_replicate] at hb
  rcases hb with hb | hb | hb | hb
  · exact items_bytes_lt w.items hall b hb
  · exact le_bytes_lt 8 w.size b hb
  · exact hmp b hb
  · rw [hb.2]
    decide

/-- Reading a wallet back from its memory image gives the wallet. -/
theorem wallet_of_bytes_wallet_bytes {w : Wallet} (hw : w.layout) :
    wallet_of_bytes (wallet_bytes w) = w := by
  obtain ⟨hlen, hall, hsize, hmp, _⟩ := hw
  have hil : (items_bytes w.items).length = MAX_ITEMS * (3 * MAX_ITEMS_SIZE) := by
    rw [length_items_bytes w.items hall, hlen]
  cases w with
  | mk items size master_password =>
    simp only at hlen hall hsize hmp hil
    simp only [wallet_of_bytes, wallet_bytes]
    have e1 : items_of_bytes MAX_ITEMS
        (items_bytes items ++ (le_bytes 8 size ++ (master_password ++ List.replicate 4 0))) =
        items := by
      rw [← hlen]
      exact items_of_bytes_items_bytes items hall _
    have e2 : (items_bytes items ++ (le_bytes 8 size ++
        (master_password ++ List.replicate 4 0))).drop (MAX_ITEMS * (3 * MAX_ITEMS_SIZE)) =
        le_bytes 8 size ++ (master_password ++ List.replicate 4 0) := by
      rw [← hil]
      exact List.drop_left' rfl
    have e3 : (le_bytes 8 size ++ (master_password ++ List.replicate 4 0)).take 8 =
        le_bytes 8 size := List.take_left' (length_le_bytes 8 size)
    have e4 : (items_bytes items ++ (le_bytes 8 size ++
        (master_password ++ List.replicate 4 0))).drop
          (MAX_ITEMS * (3 * MAX_ITEMS_SIZE) + 8) =
        master_password ++ List.replicate 4 0 := by
      have hl : MAX_ITEMS * (3 * MAX_ITEMS_SIZE) + 8 =
          (items_bytes items ++ le_bytes 8 size).length := by
        rw [List.length_append, hil, length_le_bytes]
      rw [hl, ← List.append_assoc]
      exact List.drop_left' rfl
    have e5 : (master_password ++ List.replicate 4 0).take MAX_ITEMS_SIZE = master_password :=
      List.take_left' hmp
    have e6 : of_le_bytes (le_bytes 8 size) = size := by
      rw [of_le_bytes_le_bytes]
      exact Nat.mod_eq_of_lt (by unfold SIZE_T_RANGE at hsize; omega)
    rw [e1, e2, e3, e4, e5, e6]

/-! ## C17: the seal round trip -/

theorem slot_layout_slot (s : List Nat) (hlen : s.length ≤ MAX_ITEMS_SIZE)
    (hb : ∀ b ∈ s, b < 256) : slot_layout (slot s) := by
  constructor
  · simp only [slot, List.length_append, List.length_replicate]
    omega
  · intro b hmem
    simp only [slot, List.mem_append, List.mem_replicate] at hmem
    rcases hmem with hmem | hmem
    · exact hb b hmem
    · rw [hmem.2]
      decide

theorem sample_sealer_sound : sample_sealer.sound 560 := by
  refine ⟨fun c => ?_, fun x _ => ⟨?_, ?_⟩⟩
  · show (List.replicate 560 (c.sum % 256)).length = 560
    exact List.length_replicate _ _
  · show x.reverse.reverse = x
    exact List.reverse_reverse x
  · show x.reverse.length = x.length
    exact List.length_reverse x

theorem zero_wallet_layout : zero_wallet.layout := by
  have hblank : slot_layout (slot []) :=
    slot_layout_slot [] (by simp) (by simp)
  refine ⟨by simp [zero_wallet, MAX_ITEMS], ?_, by simp [zero_wallet, SIZE_T_RANGE], hblank⟩
  intro it hit
  simp only [zero_wallet, List.mem_replicate] at hit
  rw [hit.2]
  exact ⟨hblank, hblank, hblank⟩

/-! ### The memory image of a wallet -/

theorem site_slots_layout : site_slots.layout :=
  ⟨slot_layout_slot _ (by decide) (by decide), slot_layout_slot _ (by decide) (by decide),
    slot_layout_slot _ (by decide) (by decide)⟩

theorem map_mod_of_chars (s : List Nat) (hs : chars s) : s.map (fun b => b % 256) = s := by
  induction s with
  | nil => rfl
  | cons x xs ih =>
    simp only [List.map_cons]
    rw [Nat.mod_eq_of_lt (hs x (List.mem_cons_self _ _)),
      ih (fun b hb => hs b (List.mem_cons_of_mem _ hb))]

theorem slot_image_layout (s : List Nat) : slot_layout (slot_image s) := by
  constructor
  · simp only [slot_image, List.length_take, List.length_append, List.length_map,
      List.length_replicate]
    omega
  · intro b hb
    have hb2 := List.mem_of_mem_take hb
    simp only [List.mem_append, List.mem_map, List.mem_replicate] at hb2
    rcases hb2 with ⟨a, _, ha⟩ | ⟨_, hz⟩
    · rw [← ha]
      exact Nat.mod_lt _ (by decide)
    · rw [hz]
      decide

theorem slot_image_of_layout {s : List Nat} (hs : slot_layout s) : slot_image s = s := by
  unfold slot_image
  rw [map_mod_of_chars s hs.2]
  exact List.take_left' hs.1

theorem item_image_layout (it : Item) : it.image.layout :=
  ⟨slot_image_layout _, slot_image_layout _, slot_image_layout _⟩

theorem item_image_of_layout {it : Item} (hit : it.layout) : it.image = it := by
  cases it with
  | mk title username password =>
    simp only [Item.image, slot_image_of_layout hit.1, slot_image_of_layout hit.2.1,
      slot_image_of_layout hit.2.2]

/-- The image of every wallet is a `struct Wallet` in memory. -/
theorem wallet_image_layout (w : Wallet) : w.image.layout := by
  refine ⟨?_, ?_, Nat.mod_lt _ (by decide), slot_image_layout _⟩
  · simp only [Wallet.image, List.length_take, List.length_append, List.length_map,
      List.length_replicate]
    omega
  · intro it hit
    have hit2 := List.mem_of_mem_take hit
    simp only [List.mem_append, List.mem_map, List.mem_replicate] at hit2
    rcases hit2 with ⟨a, _, ha⟩ | ⟨_, hb⟩
    · rw [← ha]
      exact item_image_layout a
    · rw [hb]
      exact ⟨slot_image_layout _, slot_image_layout _, slot_image_layout _⟩

/-- A wallet that is a `struct Wallet` in memory is its own image. -/
theorem wallet_image_of_layout {w : Wallet} (hw : w.layout) : w.image = w := by
  obtain ⟨hlen, hall, hsize, hmp⟩ := hw
  cases w with
  | mk items size master_password =>
    simp only at hlen hall hsize hmp
    have hitems : items.map Item.image = items :=
      (List.map_congr_left (fun it hit => item_image_of_layout (hall it hit))).trans
        (List.map_id items)
    have htake : (items ++
        List.replicate MAX_ITEMS
          ({ title := slot_image [], username := slot_image [], password := slot_image [] } :
            Item)).take MAX_ITEMS = items := List.take_left' hlen
    simp only [Wallet.image, hitems, htake, slot_image_of_layout hmp, Nat.mod_eq_of_lt hsize]

theorem append_zeros_split (s : List Nat) (n : Nat) :
    ∃ r, s ++ List.replicate (n + 1) 0 = c_str s ++ 0 :: r := by
  induction s with
  | nil => exact ⟨List.replicate n 0, by simp [c_str, List.replicate_succ]⟩
  | cons x xs ih =>
    obtain ⟨r, hr⟩ := ih
    by_cases hx : x = 0
    · exact ⟨xs ++ List.replicate (n + 1) 0, by simp [c_str, hx, List.takeWhile]⟩
    · refine ⟨r, ?_⟩
      have hc : c_str (x :: xs) = x :: c_str xs := by simp [c_str, hx, List.takeWhile]
      rw [hc, List.cons_append, List.cons_append, hr]

/-- The image of a slot holds the same string, when the list holds `char` values
and its string ends within the slot. -/
theorem c_str_slot_image (s : List Nat) (hs : chars s) (hlen : strlen s < MAX_ITEMS_SIZE) :
    c_str (slot_image s) = c_str s := by
  have hS : MAX_ITEMS_SIZE = 99 + 1 := rfl
  have hl : (c_str s).length < 99 + 1 := by
    rw [← strlen_eq_length_c_str, ← hS]
    exact hlen
  obtain ⟨r, hr⟩ := append_zeros_split s 99
  unfold slot_image
  rw [map_mod_of_chars s hs, hS, hr, List.take_append_eq_append_take,
    List.take_of_length_le (by omega)]
  obtain ⟨k, hk⟩ : ∃ k, 99 + 1 - (c_str s).length = k + 1 := ⟨99 - (c_str s).length, by omega⟩
  rw [hk, List.take_succ_cons, c_str_append_zero]

theorem strlen_slot_image (s : List Nat) (hs : chars s) (hlen : strlen s < MAX_ITEMS_SIZE) :
    strlen (slot_image s) = strlen s := by
  rw [strlen_eq_length_c_str, c_str_slot_image s hs hlen, ← strlen_eq_length_c_str]

/-- The image keeps the items at their positions. -/
theorem wallet_image_item (w : Wallet) (j : Nat) (it : Item) (hj : j < MAX_ITEMS)
    (hit : w.items[j]? = some it) : w.image.items[j]? = some it.image := by
  have hlt : j < (w.items.map Item.image).length := by
    rw [List.length_map]
    exact (List.getElem?_eq_some.1 hit).1
  show ((w.items.map Item.image ++ _).take MAX_ITEMS)[j]? = _
  rw [List.getElem?_take, if_pos hj, List.getElem?_append_left hlt, List.getElem?_map, hit]
  rfl

/-- The sealing engine modelled from the spec, over a sound authenticated
encryption, seals every wallet to a blob of `overhead + sizeof(wallet_t)` bytes
and unseals that blob to the `struct Wallet` that the wallet stands for. -/
theorem spec_seal_unseal (s : Sealer) (overhead : Nat) (hs : s.sound overhead) (V : Wallet) :
    spec_seal_wallet s V (overhead + sizeof_wallet_t) =
      some (s.mac (s.encrypt (wallet_bytes V.image)) ++ s.encrypt (wallet_bytes V.image)) ∧
    (s.mac (s.encrypt (wallet_bytes V.image)) ++ s.encrypt (wallet_bytes V.image)).length =
      overhead + sizeof_wallet_t ∧
    spec_unseal_wallet s overhead
      (s.mac (s.encrypt (wallet_bytes V.image)) ++ s.encrypt (wallet_bytes V.image))
      sizeof_wallet_t = some V.image := by
  have hV := wallet_image_layout V
  obtain ⟨hmac, hcipher⟩ := hs
  obtain ⟨hdec, hlen⟩ := hcipher (wallet_bytes V.image) (wallet_bytes_lt hV)
  have hsize : (s.mac (s.encrypt (wallet_bytes V.image)) ++
      s.encrypt (wallet_bytes V.image)).length = overhead + sizeof_wallet_t := by
    rw [List.length_append, hmac, hlen, length_wallet_bytes hV]
  have htake : (s.mac (s.encrypt (wallet_bytes V.image)) ++
      s.encrypt (wallet_bytes V.image)).take overhead =
      s.mac (s.encrypt (wallet_bytes V.image)) := List.take_left' (hmac _)
  have hdrop : (s.mac (s.encrypt (wallet_bytes V.image)) ++
      s.encrypt (wallet_bytes V.image)).drop overhead =
      s.encrypt (wallet_bytes V.image) := List.drop_left' (hmac _)
  refine ⟨?_, hsize, ?_⟩
  · simp only [spec_seal_wallet, hsize, if_true]
  · simp only [spec_unseal_wallet, hdrop, htake, hdec, length_wallet_bytes hV,
      wallet_of_bytes_wallet_bytes hV]
    simp

theorem sample_wallet_valid : sample_wallet.valid := by
  refine ⟨by decide, ?_, by decide, by decide⟩
  intro it hit
  have hit2 : it = site_item := by simpa [sample_wallet] using hit
  rw [hit2]
  exact ⟨by decide, by decide, by decide⟩

theorem memory_wallet_layout : memory_wallet.layout := by
  have hblank : slot_layout (slot []) := slot_layout_slot [] (by simp) (by simp)
  refine ⟨by simp [memory_wallet, MAX_ITEMS], ?_, by simp [memory_wallet, SIZE_T_RANGE],
    slot_layout_slot longpass1 (by decide) (by decide)⟩
  intro it hit
  simp only [memory_wallet, List.mem_cons, List.mem_replicate] at hit
  rcases hit with hit | hit
  · rw [hit]
    exact site_slots_layout
  · rw [hit.2]
    exact ⟨hblank, hblank, hblank⟩

theorem memory_wallet_valid : memory_wallet.valid := by
  refine ⟨by decide, ?_, by decide, by decide⟩
  intro it hit
  have hit2 : it = site_slots := by simpa [memory_wallet] using hit
  rw [hit2]
  exact ⟨by decide, by decide, by decide⟩

/-- C17: over an authenticated encryption that is sound, for every valid vault
`V`, `seal_wallet` with `sealed_size = sizeof(sgx_sealed_data_t) + sizeof(wallet_t)`
succeeds with a blob of that size, and `unseal_wallet` on the blob succeeds and
returns the `struct Wallet` that `V` stands for, `V.image`.  When `V` is a
`struct Wallet` in memory (100 items of three 100-byte slots, a 100-byte master
password) that is `V` itself.  In every case the returned vault has the size of
`V`, its master password string, and at every live position the item of `V`, with
the same three strings, wherever `V` holds `char` values. -/
theorem seal_round_trip (s : Sealer) (overhead : Nat) (hs : s.sound overhead) (V : Wallet)
    (hvalid : V.valid) :
    ∃ d, spec_seal_wallet s V (overhead + sizeof_wallet_t) = some d ∧
      d.length = overhead + sizeof_wallet_t ∧
      spec_unseal_wallet s overhead d sizeof_wallet_t = some V.image ∧
      (V.layout → spec_unseal_wallet s overhead d sizeof_wallet_t = some V) ∧
      V.image.size = V.size ∧
      (chars V.master_password → c_str V.image.master_password = c_str V.master_password) ∧
      (∀ j it, j < V.size → V.items[j]? = some it →
        V.image.items[j]? = some it.image ∧
        (chars it.title → c_str it.image.title = c_str it.title) ∧
        (chars it.username → c_str it.image.username = c_str it.username) ∧
        (chars it.password → c_str it.image.password = c_str it.password)) := by
  obtain ⟨hsize, hitems, _, hmp⟩ := hvalid
  have hM : MAX_ITEMS = 100 := rfl
  rw [live_items_valid_iff] at hitems
  obtain ⟨hseal, hlen, hunseal⟩ := spec_seal_unseal s overhead hs V
  refine ⟨_, hseal, hlen, hunseal, ?_, ?_, ?_, ?_⟩
  · intro hlayout
    rw [hunseal, wallet_image_of_layout hlayout]
  · show V.size % SIZE_T_RANGE = V.size
    exact Nat.mod_eq_of_lt (by unfold SIZE_T_RANGE; omega)
  · intro hc
    exact c_str_slot_image V.master_password hc hmp
  · intro j it hj hit
    obtain ⟨ht, hu, hp⟩ := hitems j hj it hit
    exact ⟨wallet_image_item V j it (by omega) hit,
      fun hc => c_str_slot_image it.title hc ht,
      fun hc => c_str_slot_image it.username hc hu,
      fun hc => c_str_slot_image it.password hc hp⟩

/-- C17 at the sample sealer, on two valid vaults: the wallet that holds one item
with its strings as short lists, which unseals to its image, and the same wallet
as it lies in memory, which unseals to itself. -/
theorem seal_round_trip_witness :
    sample_sealer.sound 560 ∧ sample_wallet.valid ∧ memory_wallet.valid ∧
    memory_wallet.layout ∧
    (∃ d, spec_seal_wallet sample_sealer sample_wallet (560 + sizeof_wallet_t) = some d ∧
      d.length = 560 + sizeof_wallet_t ∧
      spec_unseal_wallet sample_sealer 560 d sizeof_wallet_t = some sample_wallet.image) ∧
    (∃ d, spec_seal_wallet sample_sealer memory_wallet (560 + sizeof_wallet_t) = some d ∧
      d.length = 560 + sizeof_wallet_t ∧
      spec_unseal_wallet sample_sealer 560 d sizeof_wallet_t = some memory_wallet) :=
  ⟨sample_sealer_sound, sample_wallet_valid, memory_wallet_valid, memory_wallet_layout,
    (seal_round_trip sample_sealer 560 sample_sealer_sound sample_wallet
      sample_wallet_valid).imp (fun _ hd => ⟨hd.1, hd.2.1, hd.2.2.1⟩),
    (seal_round_trip sample_sealer 560 sample_sealer_sound memory_wallet
      memory_wallet_valid).imp (fun _ hd => ⟨hd.1, hd.2.1, hd.2.2.2.1 memory_wallet_layout⟩)⟩

/-! ## C16: the end-to-end scenario -/

theorem stored_wallet_of_file_eq (env : Env) {h h2 : Host} (hfile : h2.file = h.file) :
    stored_wallet env h2 = stored_wallet env h := by
  simp only [stored_wallet, loaded_data, hfile]

/-- After a save of a blob of `sealed_size` bytes, the load gives back the blob, so
the persisted blob unseals to what the blob unseals to. -/
theorem stored_wallet_saved (env : Env) (h : Host) (W : Wallet) (d : List Nat)
    (hs : env.ocall_status Ocall.load_wallet = SGX_SUCCESS)
    (hm : env.malloc_sealed.length = sealed_size env) (hd : d.length = sealed_size env)
    (hu : env.unseal_wallet d sizeof_wallet_t = some W) :
    stored_wallet env (saved env h W d) = some W := by
  have htake : d.take (sealed_size env) = d := List.take_of_length_le (by omega)
  have hdata : loaded_data env (saved env h W d) = d := by
    simp only [loaded_data, saved, htake]
    rw [List.drop_of_length_le (by omega), List.append_nil]
  simp only [stored_wallet, hs, hdata, hu]
  simp [saved]

theorem create_wallet_call (env : Env) (h : Host) (p : List Nat)
    (h8 : 8 ≤ strlen p) (h99 : strlen p ≤ 99)
    (hs : env.ocall_status Ocall.is_wallet = SGX_SUCCESS) (hfile : h.file = none) :
    ecall_create_wallet env h p =
      seal_and_save env (h.record Event.is_wallet)
        { items := env.malloc_wallet.items, size := 0,
          master_password := strncpy env.malloc_wallet.master_password p (strlen p + 1) } := by
  have hg : ¬ (strlen p < 8 ∨ strlen p + 1 > MAX_ITEMS_SIZE) := by
    simp only [MAX_ITEMS_SIZE]
    omega
  rw [ecall_create_wallet, if_neg hg]
  dsimp only
  rw [is_wallet_stub_success h hs]
  simp [hfile]

theorem create_wallet_exists (env : Env) (h : Host) (p f : List Nat)
    (h8 : 8 ≤ strlen p) (h99 : strlen p ≤ 99)
    (hs : env.ocall_status Ocall.is_wallet = SGX_SUCCESS) (hfile : h.file = some f) :
    ecall_create_wallet env h p =
      { ret := Code.ERR_WALLET_ALREADY_EXISTS, host := h.record Event.is_wallet } := by
  have hg : ¬ (strlen p < 8 ∨ strlen p + 1 > MAX_ITEMS_SIZE) := by
    simp only [MAX_ITEMS_SIZE]
    omega
  rw [ecall_create_wallet, if_neg hg]
  dsimp only
  rw [is_wallet_stub_success h hs]
  simp [hfile]

theorem add_item_call (env : Env) (h : Host) (V : Wallet) (master_password : List Nat)
    (item : Item) (item_size : Nat)
    (hV : stored_wallet env h = some V)
    (hlen : V.items.length = MAX_ITEMS) (hsize : V.size < MAX_ITEMS)
    (hpw : c_str master_password = c_str V.master_password)
    (ht : strlen item.title ≤ 99) (hu : strlen item.username ≤ 99)
    (hp : strlen item.password ≤ 99) :
    ecall_add_item env h master_password item item_size =
      some (seal_and_save env (opened env h)
        { V with items := V.items.set V.size item, size := V.size + 1 }) := by
  have he : strcmp V.master_password master_password = 0 := strcmp_eq_zero_of_c_str_eq hpw
  have hg : ¬ (strlen item.title + 1 > MAX_ITEMS_SIZE ∨ strlen item.username + 1 > MAX_ITEMS_SIZE ∨
      strlen item.password + 1 > MAX_ITEMS_SIZE) := by
    simp only [MAX_ITEMS_SIZE]
    omega
  simp only [ecall_add_item, load_and_unseal_of_stored hV, he, hg, if_false,
    add_item_update_spec V item hlen hsize]
  simp

theorem remove_item_call (env : Env) (h : Host) (V W : Wallet) (master_password : List Nat)
    (index : Int)
    (hV : stored_wallet env h = some V)
    (hpw : c_str master_password = c_str V.master_password)
    (h0 : 0 ≤ index) (h100 : index < 100)
    (hW : remove_item_update V index = Update.done W) :
    ecall_remove_item env h master_password index =
      some (seal_and_save env (opened env h) W) := by
  have hg : ¬ (index < 0 ∨ index ≥ (MAX_ITEMS : Int)) := by
    simp only [MAX_ITEMS]
    omega
  have he : strcmp V.master_password master_password = 0 := strcmp_eq_zero_of_c_str_eq hpw
  simp only [ecall_remove_item, hg, if_false, load_and_unseal_of_stored hV, he, hW]
  simp

/-- Removing the last live item runs the loop zero times: only the size changes. -/
theorem remove_item_update_last (V : Wallet) (n : Nat) (hsize : V.size = n + 1)
    (hn : n < MAX_ITEMS) :
    remove_item_update V (n : Int) = Update.done { V with size := n } := by
  have hM : MAX_ITEMS = 100 := rfl
  have hconv : size_t_of_int (n : Int) = n :=
    size_t_of_int_natCast n (by unfold SIZE_T_RANGE; omega)
  have hb : (V.size + SIZE_T_RANGE - 1) % SIZE_T_RANGE = n := by
    rw [size_minus_one V.size (by omega) (by unfold SIZE_T_RANGE; omega)]
    omega
  have hg : ¬ (size_t_of_int (n : Int) ≥ V.size) := by
    rw [hconv]
    omega
  have hloop : remove_loop V.size (MAX_ITEMS + 1) (n : Int) V.items = some V.items := by
    rw [remove_loop, hb, hconv, if_neg (by omega)]
  simp only [remove_item_update, hg, if_false, hloop, hb]

theorem layout_created (mw : Wallet) (p : List Nat) (hmw : mw.layout)
    (hp : ∀ b ∈ c_str p, b < 256) (h99 : strlen p ≤ 99) :
    Wallet.layout
      { items := mw.items, size := 0,
        master_password := strncpy mw.master_password p (strlen p + 1) } := by
  obtain ⟨hlen, hall, _, hmlen, hmb⟩ := hmw
  have hS : MAX_ITEMS_SIZE = 100 := rfl
  refine ⟨hlen, hall, by simp [SIZE_T_RANGE], ?_, ?_⟩
  · rw [strncpy_string]
    simp only [List.length_append, List.length_cons, List.length_drop, hmlen,
      ← strlen_eq_length_c_str]
    omega
  · intro b hb
    rw [strncpy_string] at hb
    simp only [List.mem_append, List.mem_cons] at hb
    rcases hb with hb | hb | hb
    · exact hp b hb
    · rw [hb]
      decide
    · exact hmb b (List.mem_of_mem_drop hb)

theorem layout_add (V : Wallet) (item : Item) (hV : V.layout) (hitem : item.layout)
    (hsize : V.size < MAX_ITEMS) :
    Wallet.layout { V with items := V.items.set V.size item, size := V.size + 1 } := by
  obtain ⟨hlen, hall, _, hmp⟩ := hV
  have hM : MAX_ITEMS = 100 := rfl
  refine ⟨by simpa using hlen, ?_, by simp only [SIZE_T_RANGE]; omega, hmp⟩
  intro it hit
  rcases List.mem_or_eq_of_mem_set hit with hmem | heq
  · exact hall it hmem
  · rw [heq]
    exact hitem

theorem layout_resize (V : Wallet) (n : Nat) (hV : V.layout) (hn : n < SIZE_T_RANGE) :
    Wallet.layout { V with size := n } :=
  ⟨hV.1, hV.2.1, hn, hV.2.2.2⟩


theorem file_of_stored {env : Env} {h : Host} {V : Wallet}
    (hV : stored_wallet env h = some V) : ∃ f, h.file = some f := by
  unfold stored_wallet at hV
  split at hV
  · rename_i hc
    cases hfile : h.file with
    | none => simp [hfile] at hc
    | some f => exact ⟨f, rfl⟩
  · simp at hV

/-- In a faithful environment, on a host where writes succeed, the steps "Seal
wallet" and "Save wallet" return `RET_SUCCESS` and leave a host whose persisted
blob unseals to the wallet. -/
theorem faithful_seal_and_save (env : Env) (henv : env.faithful) (h : Host) (W : Wallet)
    (hW : W.layout) (hwr : h.write_fails = false) :
    ∃ h1, seal_and_save env h W = { ret := Code.RET_SUCCESS, host := h1 } ∧
      stored_wallet env h1 = some W ∧ h1.write_fails = false := by
  obtain ⟨hst, hms, _, hrt⟩ := henv
  obtain ⟨d, hseal, hd, hun⟩ := hrt W hW
  exact ⟨saved env h W d, seal_and_save_success env h W d hseal (hst _) hwr,
    stored_wallet_saved env h W d (hst _) hms hd hun, hwr⟩

/-- C16: from a host without a wallet file on which writes succeed, with an
environment that is faithful (stubs that return `SGX_SUCCESS`, a sealing engine
with `unseal(seal(V)) == V`), the commands `Create("longpass1")`,
`Create("longpass1")`, `AddItem("longpass1", item)` for an item whose slots hold
`"site"`, `"bob"` and `"p@ss"`, `Show("wrongpass")`, `Show("longpass1")`,
`RemoveItem("longpass1", 0)` and
`ChangePassword("longpass1", "short")`, each run on the host the one before left,
return `RET_SUCCESS`, `ERR_WALLET_ALREADY_EXISTS`, `RET_SUCCESS`,
`ERR_WRONG_MASTER_PASSWORD`, `RET_SUCCESS` with a wallet of size 1 whose item 0 is
the added one, `RET_SUCCESS` and `ERR_PASSWORD_OUT_OF_RANGE`; the blob persisted at
the end unseals to a wallet of size 0 with master password `"longpass1"`. -/
theorem end_to_end (env : Env) (h0 : Host) (wallet : Wallet) (wallet_size item_size : Nat)
    (item : Item)
    (henv : env.faithful) (hfile : h0.file = none) (hwr : h0.write_fails = false)
    (hitem : item.layout) (htitle : c_str item.title = site_item.title)
    (huser : c_str item.username = site_item.username)
    (hpass : c_str item.password = site_item.password) :
    ∃ h1 h2 h3 h4 h5 h6 W Wf,
      ecall_create_wallet env h0 longpass1 = { ret := Code.RET_SUCCESS, host := h1 } ∧
      ecall_create_wallet env h1 longpass1 =
        { ret := Code.ERR_WALLET_ALREADY_EXISTS, host := h2 } ∧
      ecall_add_item env h2 longpass1 item item_size =
        some { ret := Code.RET_SUCCESS, host := h3 } ∧
      ecall_show_wallet env h3 wrongpass wallet wallet_size =
        { ret := Code.ERR_WRONG_MASTER_PASSWORD, wallet := wallet, host := h4 } ∧
      ecall_show_wallet env h4 longpass1 wallet wallet_size =
        { ret := Code.RET_SUCCESS, wallet := W, host := h5 } ∧
      W.size = 1 ∧ W.items[0]? = some item ∧
      ecall_remove_item env h5 longpass1 0 = some { ret := Code.RET_SUCCESS, host := h6 } ∧
      ecall_change_master_password env h6 longpass1 short =
        { ret := Code.ERR_PASSWORD_OUT_OF_RANGE, host := h6 } ∧
      stored_wallet env h6 = some Wf ∧ Wf.size = 0 ∧ c_str Wf.master_password = longpass1 := by
  have hst := henv.1
  have hmw := henv.2.2.1
  have hM : MAX_ITEMS = 100 := rfl
  have hlp8 : 8 ≤ strlen longpass1 := by decide
  have hlp99 : strlen longpass1 ≤ 99 := by decide
  have hlpb : ∀ b ∈ c_str longpass1, b < 256 := by decide
  have hl1 : strlen item.title ≤ 99 := by
    rw [strlen_eq_length_c_str, htitle]
    decide
  have hl2 : strlen item.username ≤ 99 := by
    rw [strlen_eq_length_c_str, huser]
    decide
  have hl3 : strlen item.password ≤ 99 := by
    rw [strlen_eq_length_c_str, hpass]
    decide
  -- the three wallets of the scenario
  obtain ⟨W0, hW0⟩ : ∃ W0 : Wallet, W0 =
      { items := env.malloc_wallet.items, size := 0,
        master_password :=
          strncpy env.malloc_wallet.master_password longpass1 (strlen longpass1 + 1) } :=
    ⟨_, rfl⟩
  have hW0size : W0.size = 0 := by rw [hW0]
  have hW0pw : c_str W0.master_password = c_str longpass1 := by
    rw [hW0]
    exact c_str_strncpy _ _
  have hW0lay : W0.layout := by
    rw [hW0]
    exact layout_created env.malloc_wallet longpass1 hmw hlpb hlp99
  obtain ⟨W1, hW1⟩ : ∃ W1 : Wallet, W1 =
      { W0 with items := W0.items.set W0.size item, size := W0.size + 1 } := ⟨_, rfl⟩
  have hW1size : W1.size = 0 + 1 := by rw [hW1, hW0size]
  have hW1pw : c_str W1.master_password = c_str longpass1 := by
    rw [hW1]
    exact hW0pw
  have hW1lay : W1.layout := by
    rw [hW1]
    exact layout_add W0 item hW0lay hitem (by omega)
  have hW1item : W1.items[0]? = some item := by
    rw [hW1]
    show (W0.items.set W0.size item)[0]? = some item
    rw [hW0size, List.getElem?_set, if_pos rfl, if_pos (by rw [hW0lay.1]; omega)]
  have hW2lay : Wallet.layout { W1 with size := 0 } :=
    layout_resize W1 0 hW1lay (by simp [SIZE_T_RANGE])
  -- Create
  obtain ⟨h1, hss1, hs1, hw1⟩ := faithful_seal_and_save env henv (h0.record Event.is_wallet) W0
    hW0lay (by simpa [Host.record] using hwr)
  have hc1 : ecall_create_wallet env h0 longpass1 = { ret := Code.RET_SUCCESS, host := h1 } := by
    rw [create_wallet_call env h0 longpass1 hlp8 hlp99 (hst _) hfile, ← hW0, hss1]
  -- Create again
  obtain ⟨f1, hf1⟩ := file_of_stored hs1
  have hc2 := create_wallet_exists env h1 longpass1 f1 hlp8 hlp99 (hst _) hf1
  have hs2 : stored_wallet env (h1.record Event.is_wallet) = some W0 :=
    (@stored_wallet_of_file_eq env h1 (h1.record Event.is_wallet) rfl).trans hs1
  -- AddItem
  obtain ⟨h3, hss3, hs3, hw3⟩ := faithful_seal_and_save env henv
    (opened env (h1.record Event.is_wallet)) W1 hW1lay (by simpa [opened, Host.record] using hw1)
  have hc3 : ecall_add_item env (h1.record Event.is_wallet) longpass1 item item_size =
      some { ret := Code.RET_SUCCESS, host := h3 } := by
    rw [add_item_call env _ W0 longpass1 item item_size hs2 hW0lay.1 (by omega)
      hW0pw.symm hl1 hl2 hl3, ← hW1, hss3]
  -- Show with the wrong password
  have hc4 : ecall_show_wallet env h3 wrongpass wallet wallet_size =
      { ret := Code.ERR_WRONG_MASTER_PASSWORD, wallet := wallet, host := opened env h3 } := by
    have hne : strcmp W1.master_password wrongpass ≠ 0 := by
      apply strcmp_ne_zero_of_c_str_ne
      rw [hW1pw]
      decide
    simp [ecall_show_wallet, show_load_and_unseal_of_stored hs3, hne]
  have hs4 : stored_wallet env (opened env h3) = some W1 :=
    (stored_wallet_of_file_eq env (opened_file env h3)).trans hs3
  -- Show with the right password
  have hc5 : ecall_show_wallet env (opened env h3) longpass1 wallet wallet_size =
      { ret := Code.RET_SUCCESS, wallet := W1, host := opened env (opened env h3) } := by
    have heq : strcmp W1.master_password longpass1 = 0 :=
      strcmp_eq_zero_of_c_str_eq hW1pw.symm
    simp [ecall_show_wallet, show_load_and_unseal_of_stored hs4, heq]
  have hs5 : stored_wallet env (opened env (opened env h3)) = some W1 :=
    (stored_wallet_of_file_eq env (opened_file env _)).trans hs4
  -- RemoveItem
  obtain ⟨h6, hss6, hs6, _⟩ := faithful_seal_and_save env henv
    (opened env (opened env (opened env h3))) { W1 with size := 0 } hW2lay
    (by simpa [opened, Host.record] using hw3)
  have hc6 : ecall_remove_item env (opened env (opened env h3)) longpass1 0 =
      some { ret := Code.RET_SUCCESS, host := h6 } := by
    have hup := remove_item_update_last W1 0 hW1size (by omega)
    rw [remove_item_call env _ W1 { W1 with size := 0 } longpass1 0 hs5 hW1pw.symm
      (le_refl _) (by decide) (by simpa using hup), hss6]
  -- ChangePassword
  have hc7 : ecall_change_master_password env h6 longpass1 short =
      { ret := Code.ERR_PASSWORD_OUT_OF_RANGE, host := h6 } := by
    have hg : strlen short < 8 ∨ strlen short + 1 > MAX_ITEMS_SIZE := Or.inl (by decide)
    simp only [ecall_change_master_password, hg, if_true]
  refine ⟨h1, h1.record Event.is_wallet, h3, opened env h3, opened env (opened env h3), h6, W1,
    { W1 with size := 0 }, hc1, hc2, hc3, hc4, hc5, hW1size, hW1item, hc6, hc7, hs6, rfl, ?_⟩
  show c_str W1.master_password = longpass1
  rw [hW1pw]
  decide

theorem sealing_env_faithful : sealing_env.faithful := by
  refine ⟨fun _ => rfl, ?_, zero_wallet_layout, ?_⟩
  · show (List.replicate 30672 0).length = 560 + sizeof_wallet_t
    rw [List.length_replicate]
    rfl
  · intro W hW
    have hsize : sealed_size sealing_env = 560 + sizeof_wallet_t := rfl
    have hseal : sealing_env.seal_wallet = spec_seal_wallet sample_sealer := rfl
    have hunseal : sealing_env.unseal_wallet = spec_unseal_wallet sample_sealer 560 := rfl
    rw [hsize, hseal, hunseal]
    obtain ⟨h1, h2, h3⟩ := spec_seal_unseal sample_sealer 560 sample_sealer_sound W
    rw [wallet_image_of_layout hW] at h1 h2 h3
    exact ⟨_, h1, h2, h3⟩

/-- C16 in the environment whose sealing engine is the one modelled from the spec
over the sample sealer, on the host without a wallet file. -/
theorem end_to_end_witness :
    sealing_env.faithful ∧ empty_host.file = none ∧ empty_host.write_fails = false ∧
    site_slots.layout ∧ c_str site_slots.title = site_item.title ∧
    c_str site_slots.username = site_item.username ∧
    c_str site_slots.password = site_item.password ∧
    ∃ h1 h6 Wf,
      ecall_create_wallet sealing_env empty_host longpass1 =
        { ret := Code.RET_SUCCESS, host := h1 } ∧
      ecall_change_master_password sealing_env h6 longpass1 short =
        { ret := Code.ERR_PASSWORD_OUT_OF_RANGE, host := h6 } ∧
      stored_wallet sealing_env h6 = some Wf ∧ Wf.size = 0 ∧
      c_str Wf.master_password = longpass1 := by
  refine ⟨sealing_env_faithful, rfl, rfl, site_slots_layout, by decide, by decide, by decide,
    ?_⟩
  obtain ⟨h1, _, _, _, _, h6, _, Wf, hc1, _, _, _, _, _, _, _, hc7, hs6, hsz, hpw⟩ :=
    end_to_end sealing_env empty_host zero_wallet 30112 300 site_slots sealing_env_faithful
      rfl rfl site_slots_layout (by decide) (by decide) (by decide)
  exact ⟨h1, h6, Wf, hc1, hc7, hs6, hsz, hpw⟩

end PasswordWallet
